/-
Verification development for the docplex-examples repository.

The repository is a collection of Python example scripts around the docplex
modeling API.  This file gives a shallow embedding, in Lean 4, of the parts of
the repository that the specification makes checkable claims about:

* `examples/cp/visu/_utils_visu.py`, in particular `_IntervalPanel.preshow`
  (event sweep + min-heap layer assignment) and `_segment_value`
  (linear interpolation inside a segment);
* `examples/mp/workflow/cutstock.py` (`CutStockMasterModel`: `load_data`,
  `add_new_pattern`, and the column-generation loop in `run`);
* `examples/mp/workflow/lagrangian_relaxation.py` (model construction in
  `run_GAP_model` and `run_GAP_model_with_Lagrangian_relaxation`);
* `examples/cp/visu/rcpsp.py` (data-file parsing);
* `examples/cp/basic/golomb_ruler_with_propagate.py` (try/except around
  `propagate()`);
* the result-reporting branches of the `examples/cp/basic` scripts, and a
  per-file feature table for the whole corpus.

Python `int` is modelled by `Int`, Python `float` values produced by the
external solver are idealized as `Rat` (the claims settled here do not depend
on rounding), Python `dict` by insertion-ordered association lists, and
functions that can raise by `Option`/`Except`.  The external CPLEX/CP
Optimizer solver is opaque and is modelled by oracles for its results.
-/
import Mathlib

namespace DocplexExamples

/-! ## Part 1: `_utils_visu.py` data model

An `_Interval` of the visualization module carries `start`, `end`, `color`,
`name` (`end` is a Lean keyword, so the field is called `stop` here). -/

/-- Interval record of `_utils_visu.py` (class `_Interval`): start, end,
color, name. -/
structure VItv where
  start : Int
  stop : Int
  color : Int
  name : Option String
deriving DecidableEq

/-- Layered interval tuple `(itv.start, itv.end, itv.color, itv.name, lvl)`
appended to `self.layered` by `_IntervalPanel.preshow`. -/
structure LItv where
  start : Int
  stop : Int
  color : Int
  name : Option String
  lvl : Nat
deriving DecidableEq

/-- Forget the layer component of a layered interval. -/
def unlayer (e : LItv) : VItv := ⟨e.start, e.stop, e.color, e.name⟩

/-- Lexicographic order on event pairs `(time, tag)`: Python compares tuples
of ints lexicographically, which is what `sorted` uses in `preshow`. -/
def evle (a b : Int × Int) : Prop :=
  a.1 < b.1 ∨ (a.1 = b.1 ∧ a.2 ≤ b.2)

instance : DecidableRel evle := fun a b =>
  inferInstanceAs (Decidable (a.1 < b.1 ∨ (a.1 = b.1 ∧ a.2 ≤ b.2)))

instance : IsTotal (Int × Int) evle where
  total a b := by
    rcases lt_trichotomy a.1 b.1 with h | h | h
    · exact Or.inl (Or.inl h)
    · rcases le_total a.2 b.2 with h2 | h2
      · exact Or.inl (Or.inr ⟨h, h2⟩)
      · exact Or.inr (Or.inr ⟨h.symm, h2⟩)
    · exact Or.inr (Or.inl h)

instance : IsTrans (Int × Int) evle where
  trans a b c hab hbc := by
    rcases hab with h1 | ⟨e1, l1⟩
    · rcases hbc with h2 | ⟨e2, _⟩
      · exact Or.inl (h1.trans h2)
      · exact Or.inl (e2 ▸ h1)
    · rcases hbc with h2 | ⟨e2, l2⟩
      · exact Or.inl (e1 ▸ h2)
      · exact Or.inr ⟨e1.trans e2, l1.trans l2⟩

/-- The raw event list of `preshow`:
`[(itv.start, +1) for itv] + [(itv.end, -1) for itv]`. -/
def rawEvents (l : List VItv) : List (Int × Int) :=
  l.map (fun i => (i.start, 1)) ++ l.map (fun i => (i.stop, -1))

/-- The event list sorted as Python `sorted` sorts pairs of ints
(lexicographically; `insertionSort` is a stable sort, like the Python sort). -/
def sortedEvents (l : List VItv) : List (Int × Int) :=
  List.insertionSort evle (rawEvents l)

/-- One step of the sweep in `preshow`: `l += e[1]; if l > n: n = l`.
The state is the pair `(l, n)`. -/
def sweepStep (p : Int × Int) (e : Int × Int) : Int × Int :=
  (p.1 + e.2, max p.2 (p.1 + e.2))

/-- The sweep of `preshow`: the maximal running sum of event tags over the
sorted event list; stored into `self.nblayers`. -/
def nblayersOf (l : List VItv) : Int :=
  ((sortedEvents l).foldl sweepStep (0, 0)).2

/-- Stable comparison used by `sorted(self.intervals, key=lambda x: x.start)`. -/
def ile (a b : VItv) : Prop := a.start ≤ b.start

instance : DecidableRel ile := fun a b =>
  inferInstanceAs (Decidable (a.start ≤ b.start))

instance : IsTotal VItv ile where
  total a b := le_total a.start b.start

instance : IsTrans VItv ile where
  trans _ _ _ hab hbc := le_trans hab hbc

/-- Heap order used by the Python `heapq` module on `(time, lvl)` pairs
(lexicographic tuple comparison). -/
def hple (a b : Int × Nat) : Prop :=
  a.1 < b.1 ∨ (a.1 = b.1 ∧ a.2 ≤ b.2)

instance : DecidableRel hple := fun a b =>
  inferInstanceAs (Decidable (a.1 < b.1 ∨ (a.1 = b.1 ∧ a.2 ≤ b.2)))

/-- The heap of `preshow`, modelled as a list kept sorted in the `heapq`
order; `heappush` is ordered insertion.  Since all entries have distinct
levels, popping the head of the sorted list returns exactly the element
`heapq.heappop` returns (the lexicographically least pair). -/
def hinsert (x : Int × Nat) : List (Int × Nat) → List (Int × Nat)
  | [] => [x]
  | y :: ys => if hple x y then x :: y :: ys else y :: hinsert x ys

/-- The assignment loop of `preshow`:
for each interval (in increasing start order) pop the heap, put the interval
on the popped level, and push `(itv.end, lvl)` back.  `heapq.heappop` on an
empty heap raises `IndexError`, modelled by `none`. -/
def assignLayers : List VItv → List (Int × Nat) → Option (List LItv)
  | [], _ => some []
  | itv :: rest, heap =>
    match heap with
    | [] => none
    | (_, lvl) :: hrest =>
      (assignLayers rest (hinsert (itv.stop, lvl) hrest)).map
        (fun out => ⟨itv.start, itv.stop, itv.color, itv.name, lvl⟩ :: out)

/-- Model of `_IntervalPanel.preshow`: computes `nblayers` by the event sweep, then
assigns every interval a layer greedily with a min-heap seeded with
`(smin, lvl)` for `lvl in range(0, n)` where `smin` is the least start.
On an empty interval list, `intervals[0]` raises `IndexError` (`none`). -/
def preshow (l : List VItv) : Option (Int × List LItv) :=
  match List.insertionSort ile l with
  | [] => none
  | first :: tail =>
    (assignLayers (first :: tail)
        ((List.range (nblayersOf l).toNat).map (fun lvl => (first.start, lvl)))).map
      (fun out => (nblayersOf l, out))

/-- Number of intervals of `l` open at time `t` (half-open convention:
`start ≤ t < stop`), the quantity the event sweep of `preshow` maximizes. -/
def openCount (l : List VItv) (t : Int) : Nat :=
  l.countP (fun i => decide (i.start ≤ t ∧ t < i.stop))

/-! ## Part 2: `_segment_value` -/

/-- Sentinel for an infinite segment bound; value of `INT_MIN` imported by
`_utils_visu.py` from the external docplex library (`-(2^53 - 1)`). -/
def INT_MIN : Int := -9007199254740991

/-- Sentinel for an infinite segment bound; value of `INT_MAX` imported by
`_utils_visu.py` from the external docplex library (`2^53 - 1`). -/
def INT_MAX : Int := 9007199254740991

/-- Segment record used by `_segment_value` (`start`, `end`, `vstart`,
`vend`); the values are floats in Python, idealized as rationals. -/
structure VSegment where
  start : Int
  stop : Int
  vstart : Rat
  vend : Rat
deriving DecidableEq

/-- Model of `_segment_value(seg, x)`: value of a segment at abscissa `x`.  The
`assert start <= x <= end` is modelled by `none`; the three branches follow
the source (initial segment, last segment, general linear interpolation). -/
def segment_value (seg : VSegment) (x : Rat) : Option Rat :=
  if ¬ ((seg.start : Rat) ≤ x ∧ x ≤ (seg.stop : Rat)) then none
  else if seg.start = INT_MIN ∧ seg.stop < INT_MAX then
    some (seg.vend - ((seg.stop : Rat) - x) * seg.vstart)
  else if seg.stop = INT_MAX ∧ seg.start > INT_MIN then
    some (seg.vstart + (x - (seg.start : Rat)) * seg.vend)
  else if seg.vstart = seg.vend then
    some seg.vstart
  else
    some (seg.vstart +
      (x - (seg.start : Rat)) * (seg.vend - seg.vstart) /
        ((seg.stop : Rat) - (seg.start : Rat)))

/-! ## Part 3: `cutstock.py` data model -/

/-- Record `TItem` of `cutstock.py`: id, size, demand, and `dual_value` initialized
to `-1` in `__init__`. -/
structure TItem where
  id : Int
  size : Int
  demand : Int
  dual_value : Int
deriving DecidableEq

/-- Constructor `TItem.make(args)`: reads `args[0]`, `args[1]`, `args[2]`; a shorter row
raises `IndexError` (`none`); extra fields are ignored. -/
def TItem.make (row : List Int) : Option TItem :=
  match row with
  | a :: b :: c :: _ => some ⟨a, b, c, -1⟩
  | _ => none

/-- Named tuple `TPattern` with fields `id` and `cost`. -/
structure TPattern where
  id : Int
  cost : Int
deriving DecidableEq

/-- Constructor call `TPattern(*pattern_row)`: a named tuple constructor applied to a row;
anything but exactly two fields raises `TypeError` (`none`). -/
def TPattern.make (row : List Int) : Option TPattern :=
  match row with
  | [a, b] => some ⟨a, b⟩
  | _ => none

/-- The mutable state of `CutStockMasterModel` relevant to its data
invariants (`items`, `patterns`, `pattern_item_filled`, `max_pattern_id`,
`roll_width`).  The Python `dict` is an insertion-ordered association
list; fill values are solver floats, idealized as rationals. -/
structure CutStockState where
  items : List TItem
  patterns : List TPattern
  pattern_item_filled : List ((TPattern × TItem) × Rat)
  max_pattern_id : Int
  roll_width : Int
deriving DecidableEq

/-- Python `dict` assignment `d[k] = v`: overwrite in place if the key is
present, else append at the end.  (Python hashes the plain `TItem` objects
by identity; here keys compare structurally, which coincides as long as no
two live `TItem` objects carry identical fields, as in all states built
from the tables of `cutstock.py`.) -/
def dictSet {K V : Type} [DecidableEq K] (d : List (K × V)) (k : K) (v : V) :
    List (K × V) :=
  if d.any (fun p => decide (p.1 = k)) then
    d.map (fun p => if p.1 = k then (k, v) else p)
  else d ++ [(k, v)]

/-- Model of `CutStockMasterModel.add_new_pattern(item_usages)`: creates the pattern
`TPattern(max_pattern_id + 1, 1)`, appends it, bumps `max_pattern_id`, and
records `pattern_item_filled[new_pattern, items[i]] = item_usages[i]` for
each index.  `self.items[i]` raises `IndexError` when `item_usages` is
longer than `items` (`none`). -/
def add_new_pattern (s : CutStockState) (us : List Rat) : Option CutStockState :=
  if us.length ≤ s.items.length then
    let np : TPattern := ⟨s.max_pattern_id + 1, 1⟩
    some { items := s.items
           patterns := s.patterns ++ [np]
           pattern_item_filled :=
             (us.zip s.items).foldl (fun d p => dictSet d (np, p.2) p.1)
               s.pattern_item_filled
           max_pattern_id := s.max_pattern_id + 1
           roll_width := s.roll_width }
  else none

/-- One positional argument of `CutStockMasterModel.load_data(*args)`.
Python is dynamically typed; the model tags each argument with its kind. -/
inductive DataArg
  | itemsT (rows : List (List Int))
  | pats (rows : List (List Int))
  | fills (rows : List (Int × Int × Rat))
  | width (w : Int)
deriving DecidableEq

/-- The distinct run-time failures `load_data` can raise. -/
inductive LoadErr
  | checkFailed
  | typeErr
  | rowIndexErr
  | emptyMaxErr
  | keyErr
  | argIndexErr (i : Nat)
deriving DecidableEq

/-- Access of `args[i]`, raising `IndexError` past the end. -/
def argAt (args : List DataArg) (i : Nat) : Except LoadErr DataArg :=
  match args.get? i with
  | some a => .ok a
  | none => .error (.argIndexErr i)

/-- Lookup in a Python dict comprehension `{idOf(a): a for a in l}`:
later duplicates overwrite, so lookup returns the last match. -/
def lastById {α : Type} (idOf : α → Int) (l : List α) (k : Int) : Option α :=
  (l.filter (fun a => decide (idOf a = k))).getLast?

/-- The item table is `args[0]`; a value of another kind fails when it is
consumed. -/
def itemTableOf (a : DataArg) : Except LoadErr (List (List Int)) :=
  match a with
  | .itemsT r => .ok r
  | _ => .error .typeErr

/-- The pattern table is `args[1]`. -/
def patTableOf (a : DataArg) : Except LoadErr (List (List Int)) :=
  match a with
  | .pats r => .ok r
  | _ => .error .typeErr

/-- The fill table is `args[2]`. -/
def fillTableOf (a : DataArg) : Except LoadErr (List (Int × Int × Rat)) :=
  match a with
  | .width _ => .error .typeErr
  | .itemsT _ => .error .typeErr
  | .pats _ => .error .typeErr
  | .fills r => .ok r

/-- The roll width is `args[3]`. -/
def widthOf (a : DataArg) : Except LoadErr Int :=
  match a with
  | .width w => .ok w
  | _ => .error .typeErr

/-- Stage `self.items = [TItem.make(it_row) for it_row in item_table]`. -/
def itemsOf (rows : List (List Int)) : Except LoadErr (List TItem) :=
  rows.mapM (fun r => (TItem.make r).elim (Except.error .rowIndexErr) Except.ok)

/-- Stage `self.patterns = [TPattern(*pattern_row) for pattern_row in ...]`. -/
def patternsOf (rows : List (List Int)) : Except LoadErr (List TPattern) :=
  rows.mapM (fun r => (TPattern.make r).elim (Except.error .typeErr) Except.ok)

/-- Stage `self.max_pattern_id = max(pt.id for pt in self.patterns)`: `ValueError`
on an empty sequence, otherwise the running maximum. -/
def maxIdOf (pats : List TPattern) : Except LoadErr Int :=
  match pats.map TPattern.id with
  | [] => .error .emptyMaxErr
  | x :: xs => .ok (xs.foldl max x)

/-- One entry of the dictionary comprehension
`{(patterns_by_id[p], items_by_id[i]): f for (p, i, f) in fill_table}`:
the two id lookups raise `KeyError` when absent. -/
def fillRowOf (patterns : List TPattern) (items : List TItem)
    (row : Int × Int × Rat) : Except LoadErr ((TPattern × TItem) × Rat) := do
  let pat ← (lastById TPattern.id patterns row.1).elim
    (Except.error .keyErr) Except.ok
  let it ← (lastById TItem.id items row.2.1).elim
    (Except.error .keyErr) Except.ok
  Except.ok ((pat, it), row.2.2)

/-- Model of `CutStockMasterModel.load_data(*args)`.  The external
`AbstractModel._check_data_args(args, 3)` lives in the docplex library, not
in this repository, so it is abstracted as a boolean predicate `check`.
After the check the source reads `args[0]`, `args[1]`, `args[2]`, builds the
items, the patterns, `max_pattern_id = max(pt.id for pt in patterns)`
(`ValueError` on an empty pattern table), the fill dictionary (`KeyError`
when a fill row names an unknown pattern or item id), and finally reads
`args[3]` for the roll width. -/
def load_data (check : List DataArg → Bool) (args : List DataArg) :
    Except LoadErr CutStockState :=
  if ¬ check args then Except.error .checkFailed
  else do
    let a0 ← argAt args 0
    let a1 ← argAt args 1
    let a2 ← argAt args 2
    let itemTable ← itemTableOf a0
    let patTable ← patTableOf a1
    let fillTable ← fillTableOf a2
    let items ← itemsOf itemTable
    let patterns ← patternsOf patTable
    let maxId ← maxIdOf patterns
    let filledPairs ← fillTable.mapM (fillRowOf patterns items)
    let a3 ← argAt args 3
    let w ← widthOf a3
    Except.ok
      { items := items
        patterns := patterns
        pattern_item_filled :=
          filledPairs.foldl (fun d kv => dictSet d kv.1 kv.2) []
        max_pattern_id := maxId
        roll_width := w }

/-- The invariant `CutStockMasterModel` maintains on its mutable state:
`max_pattern_id` bounds every pattern id and is attained by one of them
(when any pattern exists). -/
def invMaxId (s : CutStockState) : Prop :=
  (∀ p ∈ s.patterns, p.id ≤ s.max_pattern_id) ∧
  (s.patterns = [] ∨ ∃ p ∈ s.patterns, p.id = s.max_pattern_id)

instance (s : CutStockState) : Decidable (invMaxId s) :=
  inferInstanceAs (Decidable (_ ∧ _))

/-- The default data of `cutstock.py` (`DEFAULT_ITEMS`). -/
def DEFAULT_ITEMS : List (List Int) :=
  [[1, 20, 48], [2, 45, 35], [3, 50, 24], [4, 55, 10], [5, 75, 8]]

/-- Constant `DEFAULT_PATTERNS = [(i, 1) for i in range(1, 6)]`. -/
def DEFAULT_PATTERNS : List (List Int) :=
  [[1, 1], [2, 1], [3, 1], [4, 1], [5, 1]]

/-- Constant `DEFAULT_PATTERN_ITEM_FILLED = [(p, p, 1) for p in range(1, 6)]`. -/
def DEFAULT_PATTERN_ITEM_FILLED : List (Int × Int × Rat) :=
  [(1, 1, 1), (2, 2, 1), (3, 3, 1), (4, 4, 1), (5, 5, 1)]

/-- The four data arguments `DefaultCutStockMasterModel.__init__` passes to
`load_data`. -/
def defaultArgs : List DataArg :=
  [.itemsT DEFAULT_ITEMS, .pats DEFAULT_PATTERNS,
   .fills DEFAULT_PATTERN_ITEM_FILLED, .width 110]

/-! ## Part 4: the column-generation loop of `CutStockMasterModel.run` -/

/-- Solver events of one iteration: master solve, pattern-generator solve. -/
inductive Ev
  | master
  | gen
deriving DecidableEq

/-- The opaque external solver, as oracles from the `loop_count` at call
time to the objective value (`none` = solve failed). -/
structure CGOracle where
  masterObj : Nat → Option Rat
  genObj : Nat → Option Rat

/-- Constant `obj_eps = 1e-4` in `run`. -/
def obj_eps : Rat := 1 / 10000

/-- Constant `rc_eps = 1e-6` in `run`. -/
def rc_eps : Rat := 1 / 1000000

/-- The guard `abs(best - curr) >= obj_eps`.  `curr` starts as
`self.infinity`, modelled by `none`: `|inf - finite|` is infinite (true),
and `inf - inf` is a float NaN, whose comparison is false. -/
def absGeEps (best curr : Option Rat) : Bool :=
  match best, curr with
  | some b, some c => decide (|b - c| ≥ obj_eps)
  | none, none => false
  | _, _ => true

/-- The `while` loop of `CutStockMasterModel.run`, instrumented with the
list of iterations: each entry records the value of `loop_count` after the
`loop_count += 1` of that iteration together with the solver calls made.
The loop guard is `loop_count < 100 and abs(best - curr) >= obj_eps`; the
body solves the master model, increments `loop_count`, shifts `best = curr`,
then on success solves the generator model, and either breaks (solver
failure, non-negative reduced cost, or the re-checked guard at the bottom)
or adds the new pattern and loops.  `fuel` is an upper bound on the
remaining iterations used to express the recursion; it is irrelevant as
soon as it is at least `100 - loop_count` (proved below). -/
def runAux (o : CGOracle) :
    Nat → Nat → Option Rat → Option Rat → Bool → List (Nat × List Ev) × Bool
  | 0, _, _, _, status => ([], status)
  | fuel + 1, loop_count, best, curr, status =>
    if loop_count < 100 ∧ absGeEps best curr = true then
      match o.masterObj loop_count with
      | none => ([(loop_count + 1, [Ev.master])], false)
      | some obj =>
        match o.genObj loop_count with
        | none => ([(loop_count + 1, [Ev.master, Ev.gen])], false)
        | some rc =>
          if rc ≤ -rc_eps then
            if loop_count + 1 < 100 ∧ absGeEps curr (some obj) = true then
              let r := runAux o fuel (loop_count + 1) curr (some obj) true
              ((loop_count + 1, [Ev.master, Ev.gen]) :: r.1, r.2)
            else ([(loop_count + 1, [Ev.master, Ev.gen])], true)
          else ([(loop_count + 1, [Ev.master, Ev.gen])], true)
    else ([], status)

/-- Entry point `CutStockMasterModel.run`: `loop_count = 0`, `best = 0`,
`curr = self.infinity`, `status = False`; 100 is enough fuel because the
guard bounds `loop_count` by 100. -/
def runCG (o : CGOracle) : List (Nat × List Ev) × Bool :=
  runAux o 100 0 (some 0) none false

/-! ## Part 5: model construction in `lagrangian_relaxation.py` -/

/-- A constraint added by the GAP builders, as data: `rowSum i` is
`sum(x_vars[i]) <= 1`, `rowSumEq i` is `sum(x_vars[i]) == 1 - p_vars[i]`,
and `colCap j coeffs rhs` is `sum_i As[i][j] * x_vars[i][j] <= Bs[j]`. -/
inductive GapCt
  | rowSum (i : Nat)
  | rowSumEq (i : Nat)
  | colCap (j : Nat) (coeffs : List Int) (rhs : Int)
deriving DecidableEq

/-- The variable lists and constraints a GAP builder constructs: sizes of
the binary-variable groups, number of continuous `p_vars`, the constraint
list in insertion order, and the objective coefficient rows. -/
structure GapShape where
  groups : List Nat
  pvars : Nat
  cts : List GapCt
  profit : List (List Int)
deriving DecidableEq

/-- Model construction of `run_GAP_model(As, Bs, Cs)`.  The source reads the
module-level globals `C` (in `number_of_cs = len(C)`) and `B` (in
`for j in range(len(B))`), so both appear as explicit parameters; an
`IndexError` on any list access is `none`.  `binary_var_list(Cs[i])` makes
`len(Cs[i])` variables; the objective `zip`s silently truncate. -/
def buildGAP (C : List (List Int)) (B : List Int)
    (As : List (List Int)) (Bs : List Int) (Cs : List (List Int)) :
    Option GapShape := do
  let nC := C.length
  let groups ← (List.range nC).mapM (fun i => (Cs.get? i).map List.length)
  let cts ← (List.range nC).mapM (fun i => do
    let colCts ← (List.range B.length).mapM (fun j => do
      let coeffs ← (List.range nC).mapM (fun i2 => do
        let row ← As.get? i2
        let a ← row.get? j
        let g ← groups.get? i2
        if j < g then some a else none)
      let rhs ← Bs.get? j
      some (GapCt.colCap j coeffs rhs))
    some (GapCt.rowSum i :: colCts))
  some { groups := groups, pvars := 0, cts := cts.flatten,
         profit := (Cs.zip groups).map (fun p => p.1.take p.2) }

/-- Model construction of `run_GAP_model_with_Lagrangian_relaxation`.  Here
`c_range = range(len(Cs))` uses the parameter, but the variable groups are
built from the rows of the module-level global `C`
(`mdl.binary_var_list(C[i])`), and the column constraints range over
`len(Bs)` (the parameter). -/
def buildRelax (C : List (List Int))
    (As : List (List Int)) (Bs : List Int) (Cs : List (List Int)) :
    Option GapShape := do
  let nCs := Cs.length
  let groups ← (List.range nCs).mapM (fun i => (C.get? i).map List.length)
  let cts ← (List.range nCs).mapM (fun i => do
    let colCts ← (List.range Bs.length).mapM (fun j => do
      let coeffs ← (List.range nCs).mapM (fun i2 => do
        let row ← As.get? i2
        let a ← row.get? j
        let g ← groups.get? i2
        if j < g then some a else none)
      let rhs ← Bs.get? j
      some (GapCt.colCap j coeffs rhs))
    some (GapCt.rowSumEq i :: colCts))
  some { groups := groups, pvars := nCs, cts := cts.flatten,
         profit := (Cs.zip groups).map (fun p => p.1.take p.2) }

/-- Module constant `A` of `lagrangian_relaxation.py`. -/
def lagA : List (List Int) :=
  [[5, 7, 2], [14, 8, 7], [10, 6, 12], [8, 4, 15], [6, 12, 5]]

/-- Module constant `B` of `lagrangian_relaxation.py`. -/
def lagB : List Int := [15, 15, 15]

/-- Module constant `C` of `lagrangian_relaxation.py`. -/
def lagC : List (List Int) :=
  [[6, 10, 1], [12, 12, 5], [15, 4, 3], [10, 3, 9], [8, 9, 5]]

/-! ## Part 6: the data-file parsing of `rcpsp.py` -/

/-- Tokenized line `i` of the data file; `readline()` past the end of the
file returns the empty string, whose `split()` is the empty token list. -/
def lineAt (ls : List (List Int)) (i : Nat) : List Int :=
  (ls.get? i).getD []

/-- The comprehension `DURATIONS = [TASKS[t][0] for t in range(NB_TASKS)]`:
the head of every task row; an empty row raises `IndexError` (`none`). -/
def headsOf : List (List Int) → Option (List Int)
  | [] => some []
  | row :: rest =>
    match row with
    | [] => none
    | d :: _ => (headsOf rest).map (fun ds => d :: ds)

/-- The data `rcpsp.py` extracts from its file. -/
structure RcpspData where
  nbTasks : Int
  nbResources : Int
  capacities : List Int
  durations : List Int
  demands : List (List Int)
  successors : List (List Int)
deriving DecidableEq

/-- The module-level parsing of `rcpsp.py`: line 0 must unpack into exactly
`NB_TASKS, NB_RESOURCES`; line 1 is the capacities; the next `NB_TASKS`
lines are the task rows, from which `DURATIONS[t] = TASKS[t][0]`,
`DEMANDS[t] = TASKS[t][1:NB_RESOURCES+1]`, and
`SUCCESSORS[t] = TASKS[t][NB_RESOURCES+2:]` (Python slices clip, so the
slices themselves never raise). -/
def parseRcpsp (ls : List (List Int)) : Option RcpspData :=
  match lineAt ls 0 with
  | [t, r] =>
    let T := t.toNat
    let R := r.toNat
    let tasks := (List.range T).map (fun i => lineAt ls (2 + i))
    (headsOf tasks).map (fun durs =>
      { nbTasks := t
        nbResources := r
        capacities := lineAt ls 1
        durations := durs
        demands := tasks.map (fun row => (row.drop 1).take R)
        successors := tasks.map (fun row => row.drop (R + 2)) })
  | _ => none

/-! ## Part 7: `golomb_ruler_with_propagate.py` -/

/-- Outcome of the opaque `mdl.propagate()` call: a solution, the
`CpoNotSupportedException`, or any other exception. -/
inductive PropOutcome (σ ε : Type)
  | success (sol : σ)
  | notSupported
  | otherErr (e : ε)

/-- One line of script output: either the printed propagation solution or a
fixed text. -/
inductive GMsg (σ : Type)
  | solutionOf (s : σ)
  | text (t : String)

/-- The `try/except CpoNotSupportedException` block at the end of
`golomb_ruler_with_propagate.py`: on success the solution is printed; on
`CpoNotSupportedException` the not-supported message is printed and the
script ends normally; any other exception escapes (second component).
The printed text quotes the method name (Method propagate not supported by
this solver agent). -/
def golombPropagateReport {σ ε : Type} :
    PropOutcome σ ε → List (GMsg σ) × Option ε
  | .success s => ([.solutionOf s], none)
  | .notSupported =>
    ([.text "Method propagate not supported by this solver agent"], none)
  | .otherErr e => ([], some e)

/-! ## Part 8: result reporting of the CP example scripts -/

/-- What the falsy branch of a guarded report site prints: a fixed
message, a line made of a fixed text followed by the solve status, or
nothing. -/
inductive FalsyKind
  | msg (s : String)
  | statusLine (pre : String)
  | silent
deriving DecidableEq

/-- Shape of a result-testing report site. `guarded`: a test of the solve
result guards the solution printout, and the falsy branch prints as the
`FalsyKind` describes. `printThenVisu`: the script prints the solve result
unconditionally, then a test of the result conjoined with
is_visu_enabled guards the matplotlib visualization; this is the shape
shared by every `examples/cp/visu` script that tests its result.
`refineOnFail`: a test of the result guards the solution printout, and
the falsy branch calls refine_conflict, printing the refined conflict, or
the given message when the solver agent does not support the refiner
(`golomb_ruler_with_refine_conflicts.py`, line 58). -/
inductive SiteShape
  | guarded (falsy : FalsyKind)
  | printThenVisu
  | refineOnFail (notsup : String)
deriving DecidableEq

/-- A result-testing report site of a CP example script. -/
structure ScriptReport where
  script : String
  shape : SiteShape
deriving DecidableEq

/-- One piece of report output: the solution printout of a truthy result,
the status-only output a print_solution call writes for a falsy result
(solver information, no solution values), a matplotlib visualization, a
refined-conflict printout, or a plain text line. -/
inductive ScriptOut
  | solutionOut
  | solveInfoOut
  | plotOut
  | conflictOut
  | textOut (s : String)
deriving DecidableEq

/-- Ambient facts a report site reads besides the truthiness of the solve
result: the solve status string, whether visualization is enabled, and
whether the solver agent supports the conflict refiner. -/
structure SolveEnv where
  status : String
  visuEnabled : Bool
  refinerOk : Bool

/-- The text a falsy branch of a guarded site prints, given the solve
status string. -/
def falsyLines : FalsyKind → String → List ScriptOut
  | .msg s, _ => [.textOut s]
  | .statusLine p, st => [.textOut (p ++ st)]
  | .silent, _ => []

/-- Output of one report-site shape on a solve result of the given
truthiness. In the `printThenVisu` shape the unconditional print yields
the solution values exactly when the result is truthy, and the
visualization is drawn exactly when the result is truthy and
visualization is enabled. -/
def siteOut : SiteShape → Bool → SolveEnv → List ScriptOut
  | .guarded fk, res, env =>
    if res then [.solutionOut] else falsyLines fk env.status
  | .printThenVisu, res, env =>
    (if res then [ScriptOut.solutionOut] else [ScriptOut.solveInfoOut]) ++
      (if res && env.visuEnabled then [ScriptOut.plotOut] else [])
  | .refineOnFail ns, res, env =>
    if res then [.solutionOut]
    else if env.refinerOk then [.conflictOut] else [.textOut ns]

/-- The report step of a result-testing site. -/
def reportOf (e : ScriptReport) (res : Bool) (env : SolveEnv) :
    List ScriptOut :=
  siteOut e.shape res env

/-- The report site of `examples/cp/basic/facility.py` (line 113). -/
def facilityReport : ScriptReport :=
  ⟨"examples/cp/basic/facility.py", .guarded (.msg "No solution found.")⟩

set_option maxHeartbeats 1000000 in
/-- The report sites of the CP example scripts (`examples/cp/basic` and
`examples/cp/visu`) that test the truthiness of the result of a solve
call, with the shape and falsy-branch output transcribed from each
script. The CP scripts absent from this list report without testing their
solve result: `_utils_visu.py` builds no model and never solves,
`golomb_ruler_with_propagate.py` calls propagate instead of solve,
`kmeans.py` discards its solve results, `vietnamese_problem.py`,
`plant_location_with_cpo_callback.py` and
`plant_location_with_solver_listener.py` print or write the result
unconditionally, and `Cutting_stock_with_flexible_length.py` reads the
solution values unconditionally and then tests the objective-value list
of the result, not the result itself. -/
def cpReports : List ScriptReport :=
  [⟨"examples/cp/basic/color.py", .guarded (.msg "No solution found")⟩,
   ⟨"examples/cp/basic/cvrptw.py", .guarded .silent⟩,
   facilityReport,
   ⟨"examples/cp/basic/golomb_ruler.py",
     .guarded (.statusLine "Search status: ")⟩,
   ⟨"examples/cp/basic/golomb_ruler_all_solutions.py",
     .guarded (.msg "No Golomb ruler available for order 7")⟩,
   ⟨"examples/cp/basic/golomb_ruler_with_refine_conflicts.py",
     .refineOnFail
       "The configured solver agent does not support conflict refiner."⟩,
   ⟨"examples/cp/basic/hitori.py", .guarded (.msg "No solution found")⟩,
   ⟨"examples/cp/basic/house_building.py", .guarded .silent⟩,
   ⟨"examples/cp/basic/latin_cube.py", .guarded (.msg "No solution found")⟩,
   ⟨"examples/cp/basic/latin_square.py", .guarded (.msg "No solution found")⟩,
   ⟨"examples/cp/basic/light_up.py", .guarded (.msg "No solution found")⟩,
   ⟨"examples/cp/basic/linear_peg_solitaire.py",
     .guarded (.statusLine "Solve status: ")⟩,
   ⟨"examples/cp/basic/n_queen.py", .guarded (.statusLine "Solve status: ")⟩,
   ⟨"examples/cp/basic/plant_location_with_kpis.py",
     .guarded (.msg "   No solution")⟩,
   ⟨"examples/cp/basic/plant_location_with_starting_point.py first solve",
     .guarded (.msg "   No solution")⟩,
   ⟨"examples/cp/basic/plant_location_with_starting_point.py second solve",
     .guarded (.msg "   No solution")⟩,
   ⟨"examples/cp/basic/sched_jobshop_blackbox.py",
     .guarded (.msg "No solution found")⟩,
   ⟨"examples/cp/basic/shapes_with_blackboxes.py",
     .guarded (.msg "No solution found")⟩,
   ⟨"examples/cp/basic/steelmill.py", .guarded (.msg "No solution found")⟩,
   ⟨"examples/cp/basic/sudoku.py", .guarded (.msg "No solution found")⟩,
   ⟨"examples/cp/basic/trimloss.py", .guarded (.msg "No solution found")⟩,
   ⟨"examples/cp/basic/truck_fleet.py",
     .guarded (.statusLine "Solve status: ")⟩,
   ⟨"examples/cp/visu/flow_shop.py", .printThenVisu⟩,
   ⟨"examples/cp/visu/flow_shop_permutation.py", .printThenVisu⟩,
   ⟨"examples/cp/visu/house_building_basic.py", .printThenVisu⟩,
   ⟨"examples/cp/visu/house_building_calendar.py", .printThenVisu⟩,
   ⟨"examples/cp/visu/house_building_cumul.py", .printThenVisu⟩,
   ⟨"examples/cp/visu/house_building_optional.py", .printThenVisu⟩,
   ⟨"examples/cp/visu/house_building_state.py", .printThenVisu⟩,
   ⟨"examples/cp/visu/house_building_time.py", .printThenVisu⟩,
   ⟨"examples/cp/visu/job_shop_basic.py", .printThenVisu⟩,
   ⟨"examples/cp/visu/job_shop_flexible.py", .printThenVisu⟩,
   ⟨"examples/cp/visu/job_shop_stochastic.py", .printThenVisu⟩,
   ⟨"examples/cp/visu/open_shop.py", .printThenVisu⟩,
   ⟨"examples/cp/visu/rcpsp.py", .printThenVisu⟩,
   ⟨"examples/cp/visu/rcpsp_multi_mode.py", .printThenVisu⟩,
   ⟨"examples/cp/visu/rcpsp_multi_mode_json.py", .printThenVisu⟩,
   ⟨"examples/cp/visu/sched_RCPSP.py", .printThenVisu⟩,
   ⟨"examples/cp/visu/sched_RCPSPMM.py", .printThenVisu⟩,
   ⟨"examples/cp/visu/sched_calendar.py", .printThenVisu⟩,
   ⟨"examples/cp/visu/sched_cumul.py", .printThenVisu⟩,
   ⟨"examples/cp/visu/sched_flow_shop.py", .printThenVisu⟩,
   ⟨"examples/cp/visu/sched_intro.py", .printThenVisu⟩,
   ⟨"examples/cp/visu/sched_job_shop.py", .printThenVisu⟩,
   ⟨"examples/cp/visu/sched_job_shop_flex.py", .printThenVisu⟩,
   ⟨"examples/cp/visu/sched_open_shop.py", .printThenVisu⟩,
   ⟨"examples/cp/visu/sched_optional.py", .printThenVisu⟩,
   ⟨"examples/cp/visu/sched_pflow_shop.py", .printThenVisu⟩,
   ⟨"examples/cp/visu/sched_setup.py", .printThenVisu⟩,
   ⟨"examples/cp/visu/sched_square.py", .printThenVisu⟩,
   ⟨"examples/cp/visu/sched_state.py", .printThenVisu⟩,
   ⟨"examples/cp/visu/sched_stochastic_job_shop.py", .printThenVisu⟩,
   ⟨"examples/cp/visu/sched_tcost.py", .printThenVisu⟩,
   ⟨"examples/cp/visu/sched_time.py", .printThenVisu⟩,
   ⟨"examples/cp/visu/setup_costs.py", .printThenVisu⟩,
   ⟨"examples/cp/visu/setup_times.py", .printThenVisu⟩,
   ⟨"examples/cp/visu/squaring_square.py", .printThenVisu⟩]

/-! ## Part 9: per-file shape of the whole corpus -/

/-- Shape features of one source file: whether its code contains a call of
a solve method, and whether it sets an objective (a `minimize`, `maximize`,
or multi-objective call). -/
structure SrcFile where
  path : String
  callsSolve : Bool
  setsObjective : Bool
deriving DecidableEq

set_option maxHeartbeats 1000000 in
/-- All 86 Python source files of the repository with their shape
features, transcribed file by file. -/
def corpus : List SrcFile :=
  [⟨"examples/cp/basic/Cutting_stock_with_flexible_length.py", true, true⟩,
   ⟨"examples/cp/basic/color.py", true, false⟩,
   ⟨"examples/cp/basic/cvrptw.py", true, true⟩,
   ⟨"examples/cp/basic/facility.py", true, true⟩,
   ⟨"examples/cp/basic/golomb_ruler.py", true, true⟩,
   ⟨"examples/cp/basic/golomb_ruler_all_solutions.py", true, true⟩,
   ⟨"examples/cp/basic/golomb_ruler_with_propagate.py", false, true⟩,
   ⟨"examples/cp/basic/golomb_ruler_with_refine_conflicts.py", true, true⟩,
   ⟨"examples/cp/basic/hitori.py", true, false⟩,
   ⟨"examples/cp/basic/house_building.py", true, true⟩,
   ⟨"examples/cp/basic/kmeans.py", true, true⟩,
   ⟨"examples/cp/basic/latin_cube.py", true, false⟩,
   ⟨"examples/cp/basic/latin_square.py", true, false⟩,
   ⟨"examples/cp/basic/light_up.py", true, true⟩,
   ⟨"examples/cp/basic/linear_peg_solitaire.py", true, false⟩,
   ⟨"examples/cp/basic/n_queen.py", true, false⟩,
   ⟨"examples/cp/basic/plant_location_with_cpo_callback.py", true, true⟩,
   ⟨"examples/cp/basic/plant_location_with_kpis.py", true, true⟩,
   ⟨"examples/cp/basic/plant_location_with_starting_point.py", true, true⟩,
   ⟨"examples/cp/basic/sched_jobshop_blackbox.py", true, true⟩,
   ⟨"examples/cp/basic/shapes_with_blackboxes.py", true, true⟩,
   ⟨"examples/cp/basic/steelmill.py", true, true⟩,
   ⟨"examples/cp/basic/sudoku.py", true, false⟩,
   ⟨"examples/cp/basic/trimloss.py", true, true⟩,
   ⟨"examples/cp/basic/truck_fleet.py", true, true⟩,
   ⟨"examples/cp/basic/vietnamese_problem.py", true, false⟩,
   ⟨"examples/cp/visu/_utils_visu.py", false, false⟩,
   ⟨"examples/cp/visu/flow_shop.py", true, true⟩,
   ⟨"examples/cp/visu/flow_shop_permutation.py", true, true⟩,
   ⟨"examples/cp/visu/house_building_basic.py", true, false⟩,
   ⟨"examples/cp/visu/house_building_calendar.py", true, true⟩,
   ⟨"examples/cp/visu/house_building_cumul.py", true, true⟩,
   ⟨"examples/cp/visu/house_building_optional.py", true, true⟩,
   ⟨"examples/cp/visu/house_building_state.py", true, true⟩,
   ⟨"examples/cp/visu/house_building_time.py", true, true⟩,
   ⟨"examples/cp/visu/job_shop_basic.py", true, true⟩,
   ⟨"examples/cp/visu/job_shop_flexible.py", true, true⟩,
   ⟨"examples/cp/visu/job_shop_stochastic.py", true, true⟩,
   ⟨"examples/cp/visu/open_shop.py", true, true⟩,
   ⟨"examples/cp/visu/plant_location_with_solver_listener.py", true, true⟩,
   ⟨"examples/cp/visu/rcpsp.py", true, true⟩,
   ⟨"examples/cp/visu/rcpsp_multi_mode.py", true, true⟩,
   ⟨"examples/cp/visu/rcpsp_multi_mode_json.py", true, true⟩,
   ⟨"examples/cp/visu/sched_RCPSP.py", true, true⟩,
   ⟨"examples/cp/visu/sched_RCPSPMM.py", true, true⟩,
   ⟨"examples/cp/visu/sched_calendar.py", true, true⟩,
   ⟨"examples/cp/visu/sched_cumul.py", true, true⟩,
   ⟨"examples/cp/visu/sched_flow_shop.py", true, true⟩,
   ⟨"examples/cp/visu/sched_intro.py", true, false⟩,
   ⟨"examples/cp/visu/sched_job_shop.py", true, true⟩,
   ⟨"examples/cp/visu/sched_job_shop_flex.py", true, true⟩,
   ⟨"examples/cp/visu/sched_open_shop.py", true, true⟩,
   ⟨"examples/cp/visu/sched_optional.py", true, true⟩,
   ⟨"examples/cp/visu/sched_pflow_shop.py", true, true⟩,
   ⟨"examples/cp/visu/sched_setup.py", true, true⟩,
   ⟨"examples/cp/visu/sched_square.py", true, false⟩,
   ⟨"examples/cp/visu/sched_state.py", true, true⟩,
   ⟨"examples/cp/visu/sched_stochastic_job_shop.py", true, true⟩,
   ⟨"examples/cp/visu/sched_tcost.py", true, true⟩,
   ⟨"examples/cp/visu/sched_time.py", true, true⟩,
   ⟨"examples/cp/visu/setup_costs.py", true, true⟩,
   ⟨"examples/cp/visu/setup_times.py", true, true⟩,
   ⟨"examples/cp/visu/squaring_square.py", true, false⟩,
   ⟨"examples/modeling/diet.py", true, true⟩,
   ⟨"examples/modeling/nurses.py", true, true⟩,
   ⟨"examples/modeling/production.py", true, true⟩,
   ⟨"examples/modeling/sport_scheduling.py", true, true⟩,
   ⟨"examples/mp/callbacks/branch_callback.py", true, true⟩,
   ⟨"examples/mp/callbacks/cut_callback.py", true, true⟩,
   ⟨"examples/mp/callbacks/heuristic_callback.py", true, false⟩,
   ⟨"examples/mp/callbacks/incumbent_callback.py", true, true⟩,
   ⟨"examples/mp/callbacks/lazy_callback.py", true, true⟩,
   ⟨"examples/mp/docplexcloud/diet_on_docplexcloud.py", false, false⟩,
   ⟨"examples/mp/docplexcloud/diet_pandas.py", true, true⟩,
   ⟨"examples/mp/modeling/diet.py", true, true⟩,
   ⟨"examples/mp/modeling/network.py", true, true⟩,
   ⟨"examples/mp/modeling/nurses_multiobj.py", true, true⟩,
   ⟨"examples/mp/modeling/production.py", true, true⟩,
   ⟨"examples/mp/modeling/sailcopw.py", true, true⟩,
   ⟨"examples/mp/modeling/sport_scheduling.py", true, true⟩,
   ⟨"examples/mp/workflow/cutstock.py", true, true⟩,
   ⟨"examples/mp/workflow/lagrangian_relaxation.py", true, true⟩,
   ⟨"examples/mp/workflow/load_balancing.py", true, true⟩,
   ⟨"examples/mp/workflow/populate.py", false, false⟩,
   ⟨"examples/workflow/lagrangian_relaxation.py", true, true⟩,
   ⟨"examples/workflow/load_balancing.py", true, true⟩]

/-! ## Part 10: auxiliary definitions used by the statements below -/

/-- Well-formedness of the three data tables of `load_data`: every item row
has its three leading fields, the pattern table is non-empty and its rows
are exact pairs, and every fill row names an existing pattern id and item
id (the id is the leading field of a row). -/
def WFTables (it pt : List (List Int)) (ft : List (Int × Int × Rat)) : Prop :=
  (∀ r ∈ it, 3 ≤ r.length) ∧ pt ≠ [] ∧ (∀ r ∈ pt, r.length = 2) ∧
  ∀ f ∈ ft, (∃ r ∈ pt, r.head? = some f.1) ∧ ∃ r ∈ it, r.head? = some f.2.1

instance (it pt : List (List Int)) (ft : List (Int × Int × Rat)) :
    Decidable (WFTables it pt ft) :=
  inferInstanceAs (Decidable (_ ∧ _ ∧ _ ∧ _))

/-- The state `DefaultCutStockMasterModel` reaches after its
`load_data(DEFAULT_ITEMS, DEFAULT_PATTERNS, DEFAULT_PATTERN_ITEM_FILLED,
DEFAULT_ROLL_WIDTH)` call; the fallback is the state `__init__` leaves
(`patterns = []`, `max_pattern_id = -1`, `roll_width = 99999`). -/
def defaultLoadedState : CutStockState :=
  ((load_data (fun _ => true) defaultArgs).toOption).getD ⟨[], [], [], -1, 99999⟩

/-- The four corpus files whose code contains no call of a solve method:
the plotting library module, the propagate-only script, the cloud-job
script, and the solution-pool script. -/
def solveExceptions : List String :=
  ["examples/cp/basic/golomb_ruler_with_propagate.py",
   "examples/cp/visu/_utils_visu.py",
   "examples/mp/docplexcloud/diet_on_docplexcloud.py",
   "examples/mp/workflow/populate.py"]

/-- Three nested intervals used to exhibit the layer count computed by the
sweep of `preshow`: three layers, a value that appears nowhere in the
input. -/
def nestedDemo : List VItv :=
  [⟨0, 10, 0, none⟩, ⟨1, 9, 1, none⟩, ⟨2, 8, 2, none⟩]

/-- Sum of the event tags of an event list. -/
def sumTags (es : List (Int × Int)) : Int := (es.map Prod.snd).sum

/-- The availability time of a layer during the assignment loop of
`preshow`: the end of the last interval placed on that layer, or the
minimal start `smin` when the layer is still empty — exactly the time
component the heap stores for the layer. -/
def availOf (smin : Int) (hist : List LItv) (lvl : Nat) : Int :=
  ((hist.filter (fun e => e.lvl == lvl)).getLast?).elim smin LItv.stop

/-! # Theorems

First a collection of helper lemmas, then one theorem per claim (with its
witness or counterexample where applicable). -/

/-! ## Helper lemmas on `Except` and `List.mapM` -/

theorem ok_bind {ε α β : Type} (a : α) (f : α → Except ε β) :
    (Except.ok a >>= f) = f a := rfl

theorem error_bind {ε α β : Type} (e : ε) (f : α → Except ε β) :
    ((Except.error e : Except ε α) >>= f) = Except.error e := rfl

theorem except_ok_of_bind {ε α β : Type} {x : Except ε α} {f : α → Except ε β}
    {b : β} (h : (x >>= f) = .ok b) : ∃ a, x = .ok a ∧ f a = .ok b := by
  cases x with
  | ok a => exact ⟨a, rfl, h⟩
  | error e => exact absurd h (by simp [Bind.bind, Except.bind])

theorem mapM_except_ok {ε α β : Type} (f : α → Except ε β) (l : List α)
    (h : ∀ x ∈ l, ∃ y, f x = Except.ok y) :
    ∃ out, l.mapM f = Except.ok out ∧ out.length = l.length ∧
      (∀ y ∈ out, ∃ x ∈ l, f x = Except.ok y) ∧
      (∀ x ∈ l, ∀ y, f x = Except.ok y → y ∈ out) := by
  induction l with
  | nil => exact ⟨[], rfl, rfl, by simp, by simp⟩
  | cons a as ih =>
    obtain ⟨y, hy⟩ := h a (List.mem_cons_self a as)
    obtain ⟨out, hout, hlen, hback, hfwd⟩ :=
      ih (fun x hx => h x (List.mem_cons_of_mem a hx))
    refine ⟨y :: out, ?_, by simp [hlen], ?_, ?_⟩
    · rw [List.mapM_cons, hy, ok_bind, hout, ok_bind]
      rfl
    · intro z hz
      rcases List.mem_cons.1 hz with hz | hz
      · exact ⟨a, List.mem_cons_self a as, hz ▸ hy⟩
      · obtain ⟨x, hx, hfx⟩ := hback z hz
        exact ⟨x, List.mem_cons_of_mem a hx, hfx⟩
    · intro x hx z hz
      rcases List.mem_cons.1 hx with hx | hx
      · subst hx
        rw [hy] at hz
        cases hz
        exact List.mem_cons_self _ _
      · exact List.mem_cons_of_mem _ (hfwd x hx z hz)

theorem argAt_ok_length {args : List DataArg} {i : Nat} {a : DataArg}
    (h : argAt args i = .ok a) : i < args.length := by
  by_contra hlt
  have : args.get? i = none := List.get?_eq_none.2 (by omega)
  rw [argAt, this] at h
  cases h

theorem filter_getLast_some {α : Type} (p : α → Bool) (l : List α) (x : α)
    (hx : x ∈ l) (hp : p x = true) :
    ∃ z, (l.filter p).getLast? = some z ∧ z ∈ l.filter p := by
  have hne : l.filter p ≠ [] :=
    List.ne_nil_of_mem (List.mem_filter.2 ⟨hx, hp⟩)
  exact ⟨(l.filter p).getLast hne, List.getLast?_eq_getLast _ hne,
    List.getLast_mem hne⟩

/-! ## Helper lemmas on running maxima -/

theorem le_foldl_max_init (x : Int) (xs : List Int) : x ≤ xs.foldl max x := by
  induction xs generalizing x with
  | nil => exact le_refl x
  | cons b bs ih => exact le_trans (le_max_left x b) (ih (max x b))

theorem foldl_max_le (x : Int) (xs : List Int) :
    ∀ y ∈ x :: xs, y ≤ xs.foldl max x := by
  induction xs generalizing x with
  | nil =>
    intro y hy
    rw [List.mem_singleton.1 hy]
    exact le_refl x
  | cons b bs ih =>
    intro y hy
    rcases List.mem_cons.1 hy with rfl | hy
    · exact le_trans (le_max_left y b) (le_foldl_max_init _ _)
    · rcases List.mem_cons.1 hy with rfl | hy
      · exact le_trans (le_max_right x y) (le_foldl_max_init _ _)
      · exact ih (max x b) y (List.mem_cons_of_mem _ hy)

theorem foldl_max_mem (x : Int) (xs : List Int) :
    xs.foldl max x ∈ x :: xs := by
  induction xs generalizing x with
  | nil => simp [List.foldl]
  | cons b bs ih =>
    have h := ih (max x b)
    rw [List.foldl_cons]
    rcases List.mem_cons.1 h with h | h
    · rw [h]
      rcases max_choice x b with hm | hm <;> rw [hm]
      · exact List.mem_cons_self _ _
      · exact List.mem_cons_of_mem _ (List.mem_cons_self _ _)
    · exact List.mem_cons_of_mem _ (List.mem_cons_of_mem _ h)

/-! ## Claim C1: algorithmic content of `_utils_visu.py` -/

/-- Claim C1, counterexample: `_segment_value` does compute a derived
quantity by its own algorithm.  On the segment from 0 to 10 with values
0 and 100, the value at abscissa 5 is the interpolated 50, which equals
none of the input data of the call. -/
theorem segment_value_derived_cex :
    segment_value ⟨0, 10, 0, 100⟩ 5 = some 50 ∧
    (50 : Rat) ≠ 0 ∧ (50 : Rat) ≠ 100 ∧ (50 : Rat) ≠ 10 ∧ (50 : Rat) ≠ 5 := by
  refine ⟨?_, by norm_num, by norm_num, by norm_num, by norm_num⟩
  norm_num [segment_value, INT_MIN, INT_MAX]

/-- Claim C1 as amended: the visualization module does contain algorithmic
content.  `_segment_value` computes, on any interior point of a finite
segment with increasing values, a value strictly between `vstart` and
`vend` (an interpolated quantity, not a forwarded input), and
`_IntervalPanel.preshow` computes a derived layer count by its event sweep
(three for a nest of three intervals, a number appearing nowhere in the
input data). -/
theorem visu_algorithmic_content :
    (∀ (seg : VSegment) (x : Rat),
      INT_MIN < seg.start → seg.stop < INT_MAX →
      (seg.start : Rat) < x → x < (seg.stop : Rat) →
      seg.vstart < seg.vend →
      ∃ v, segment_value seg x = some v ∧ seg.vstart < v ∧ v < seg.vend) ∧
    nblayersOf nestedDemo = 3 ∧
    (3 : Int) ∉ nestedDemo.map VItv.start ∧ (3 : Int) ∉ nestedDemo.map VItv.stop := by
  refine ⟨?_, by decide, by decide, by decide⟩
  intro seg x hmin hmax hx1 hx2 hv
  have hne1 : ¬ (seg.start = INT_MIN ∧ seg.stop < INT_MAX) :=
    fun h => absurd h.1 (ne_of_gt hmin)
  have hne2 : ¬ (seg.stop = INT_MAX ∧ seg.start > INT_MIN) :=
    fun h => absurd h.1 (ne_of_lt hmax)
  have hse : (seg.start : Rat) < (seg.stop : Rat) := hx1.trans hx2
  have hes : 0 < (seg.stop : Rat) - (seg.start : Rat) := by linarith
  have hxs : 0 < x - (seg.start : Rat) := by linarith
  have hvv : 0 < seg.vend - seg.vstart := by linarith
  unfold segment_value
  rw [if_neg (not_not_intro ⟨hx1.le, hx2.le⟩), if_neg hne1, if_neg hne2,
    if_neg hv.ne]
  refine ⟨_, rfl, ?_, ?_⟩
  · have := div_pos (mul_pos hxs hvv) hes
    linarith
  · have hlt : (x - (seg.start : Rat)) * (seg.vend - seg.vstart) /
        ((seg.stop : Rat) - (seg.start : Rat)) < seg.vend - seg.vstart := by
      rw [div_lt_iff₀ hes]
      nlinarith
    linarith

/-- Witness for the amended claim C1, at the segment from 0 to 10 with
values 0 and 100 and abscissa 5. -/
theorem visu_algorithmic_content_witness :
    ∃ v, segment_value ⟨0, 10, 0, 100⟩ 5 = some v ∧ (0 : Rat) < v ∧ v < 100 :=
  visu_algorithmic_content.1 ⟨0, 10, 0, 100⟩ 5 (by norm_num [INT_MIN])
    (by norm_num [INT_MAX]) (by norm_num) (by norm_num) (by norm_num)

/-! ## Claim C5: what the CP scripts print when solve returns nothing -/

/-- Claim C5, counterexample: `facility.py` tests its solve result but its
falsy branch prints the line No solution found with a trailing period, not
exactly the message the claim states. -/
theorem facility_message_cex :
    facilityReport ∈ cpReports ∧
    reportOf facilityReport false ⟨"", false, false⟩ =
      [ScriptOut.textOut "No solution found."] ∧
    reportOf facilityReport false ⟨"", false, false⟩ ≠
      [ScriptOut.textOut "No solution found"] := by
  exact ⟨by decide, rfl, by decide⟩

/-- Claim C5 as amended: every result-testing report site of the CP
example scripts prints the solution exactly when a result is returned,
never prints the solution in the falsy branch, and never draws the
visualization in the falsy branch or with visualization disabled; but the
falsy behavior is script-specific: some scripts print exactly No solution
found, `facility.py` appends a period, other sites print a status line,
an order-specific message, or nothing, the refine-conflicts script runs
the conflict refiner instead, and the visu scripts print the solve result
unconditionally and test it only to guard the visualization. -/
theorem cp_report_messages :
    (∀ e ∈ cpReports, ∀ env : SolveEnv,
      ScriptOut.solutionOut ∈ reportOf e true env ∧
      ScriptOut.solutionOut ∉ reportOf e false env ∧
      ScriptOut.plotOut ∉ reportOf e false env ∧
      (env.visuEnabled = false → ScriptOut.plotOut ∉ reportOf e true env)) ∧
    (∃ e ∈ cpReports, ∀ env : SolveEnv,
      reportOf e false env = [ScriptOut.textOut "No solution found"]) ∧
    (∃ e ∈ cpReports, ∀ env : SolveEnv,
      reportOf e false env = [ScriptOut.textOut "No solution found."]) ∧
    (∃ e ∈ cpReports,
      reportOf e false ⟨"", false, false⟩ ≠
        [ScriptOut.textOut "No solution found"]) := by
  refine ⟨?_,
    ⟨⟨"examples/cp/basic/color.py", .guarded (.msg "No solution found")⟩,
      by decide, fun env => rfl⟩,
    ⟨facilityReport, by decide, fun env => rfl⟩,
    ⟨facilityReport, by decide, by decide⟩⟩
  intro e _ env
  rcases e with ⟨s, sh⟩
  cases sh with
  | guarded fk =>
    refine ⟨by simp [reportOf, siteOut], ?_, ?_, fun _ => by simp [reportOf, siteOut]⟩
    · cases fk <;> simp [reportOf, siteOut, falsyLines]
    · cases fk <;> simp [reportOf, siteOut, falsyLines]
  | printThenVisu =>
    refine ⟨by simp [reportOf, siteOut], by simp [reportOf, siteOut],
      by simp [reportOf, siteOut], fun h => by simp [reportOf, siteOut, h]⟩
  | refineOnFail ns =>
    refine ⟨by simp [reportOf, siteOut], ?_, ?_, fun _ => by simp [reportOf, siteOut]⟩
    · by_cases h : env.refinerOk <;> simp [reportOf, siteOut, h]
    · by_cases h : env.refinerOk <;> simp [reportOf, siteOut, h]

/-- Witness for the amended claim C5, at the `flow_shop.py` report site
with visualization enabled and solve status st. -/
theorem cp_report_messages_witness :
    ScriptOut.solutionOut ∈
      reportOf ⟨"examples/cp/visu/flow_shop.py", .printThenVisu⟩ true
        ⟨"st", true, true⟩ ∧
    ScriptOut.solutionOut ∉
      reportOf ⟨"examples/cp/visu/flow_shop.py", .printThenVisu⟩ false
        ⟨"st", true, true⟩ ∧
    ScriptOut.plotOut ∉
      reportOf ⟨"examples/cp/visu/flow_shop.py", .printThenVisu⟩ false
        ⟨"st", true, true⟩ ∧
    ((⟨"st", true, true⟩ : SolveEnv).visuEnabled = false →
      ScriptOut.plotOut ∉
        reportOf ⟨"examples/cp/visu/flow_shop.py", .printThenVisu⟩ true
          ⟨"st", true, true⟩) :=
  cp_report_messages.1 ⟨"examples/cp/visu/flow_shop.py", .printThenVisu⟩
    (by decide) ⟨"st", true, true⟩

/-! ## Claim C6: the try/except around `propagate()` -/

/-- Claim C6: if `propagate()` raises `CpoNotSupportedException`, the script
prints the not-supported message and terminates normally with no exception
escaping, and the propagation solution is printed if and only if
`propagate()` returns without raising. -/
theorem golomb_propagate_correct {σ ε : Type} (o : PropOutcome σ ε) :
    (o = PropOutcome.notSupported →
      golombPropagateReport o =
        ([GMsg.text "Method propagate not supported by this solver agent"],
          none)) ∧
    ((∃ s, GMsg.solutionOf s ∈ (golombPropagateReport o).1) ↔
      ∃ s, o = PropOutcome.success s) := by
  cases o with
  | success s => simp [golombPropagateReport]
  | notSupported => simp [golombPropagateReport]
  | otherErr e => simp [golombPropagateReport]

/-- Witness for claim C6, at the not-supported outcome. -/
theorem golomb_propagate_correct_witness :
    golombPropagateReport (PropOutcome.notSupported : PropOutcome Nat Nat) =
      ([GMsg.text "Method propagate not supported by this solver agent"],
        none) :=
  (@golomb_propagate_correct Nat Nat PropOutcome.notSupported).1 rfl

/-! ## Claim C8: the per-file shape of the corpus -/

/-- Claim C8, counterexample: `color.py` calls solve but sets no objective
and `_utils_visu.py` neither builds a model nor calls solve, so it is not
the case that every corpus file both sets an objective and calls solve. -/
theorem corpus_shape_cex :
    (⟨"examples/cp/basic/color.py", true, false⟩ : SrcFile) ∈ corpus ∧
    (⟨"examples/cp/visu/_utils_visu.py", false, false⟩ : SrcFile) ∈ corpus ∧
    ¬ ∀ f ∈ corpus, f.callsSolve = true ∧ f.setsObjective = true := by decide

/-- Claim C8 as amended: every corpus file calls solve except the four
named files (the plotting library module, the propagate-only script, the
cloud-job script, and the solution-pool script), and not every file sets an
objective: satisfaction examples call solve with no objective, and library
files do neither. -/
theorem corpus_shape_amended :
    (∀ f ∈ corpus, f.callsSolve = true ∨ f.path ∈ solveExceptions) ∧
    (∃ f ∈ corpus, f.callsSolve = true ∧ f.setsObjective = false) ∧
    (∃ f ∈ corpus, f.callsSolve = false ∧ f.setsObjective = false) := by decide

/-- Witness for the amended claim C8, at `color.py`. -/
theorem corpus_shape_amended_witness :
    (⟨"examples/cp/basic/color.py", true, false⟩ : SrcFile).callsSolve = true ∨
    (⟨"examples/cp/basic/color.py", true, false⟩ : SrcFile).path ∈
      solveExceptions :=
  corpus_shape_amended.1 ⟨"examples/cp/basic/color.py", true, false⟩ (by decide)

/-! ## Claim C9: the arity mismatch in `CutStockMasterModel.load_data` -/

/-- Shape lemma: an item row with at least three fields parses. -/
theorem titem_make_of_len {r : List Int} (h : 3 ≤ r.length) :
    ∃ y, TItem.make r = some y := by
  rcases r with _ | ⟨a, _ | ⟨b, _ | ⟨c, r⟩⟩⟩
  · simp at h
  · simp at h
  · simp at h
  · exact ⟨⟨a, b, c, -1⟩, rfl⟩

/-- Shape lemma: a pattern row with exactly two fields parses, and its id is
the leading field. -/
theorem tpattern_make_of_len {r : List Int} (h : r.length = 2) :
    ∃ y, TPattern.make r = some y ∧ r.head? = some (TPattern.id y) := by
  rcases r with _ | ⟨a, _ | ⟨b, _ | ⟨c, r⟩⟩⟩
  · simp at h
  · simp at h
  · exact ⟨⟨a, b⟩, rfl, rfl⟩
  · simp at h

/-- Claim C9, counterexample: the call with exactly three data arguments
whose tables are all empty passes a permissive arity check but fails with
the `ValueError` of `max()` on an empty sequence, not with an
index-out-of-range error. -/
theorem load_data_error_kind_cex :
    load_data (fun _ => true) [.itemsT [], .pats [], .fills []] =
      .error .emptyMaxErr ∧
    LoadErr.emptyMaxErr ≠ LoadErr.argIndexErr 3 := ⟨rfl, by decide⟩

/-- Claim C9 as amended: `load_data` can only return normally when given at
least four data arguments (as `DefaultCutStockMasterModel` supplies); every
call with exactly three data arguments that passes the arity check fails,
and when the three tables are themselves well-formed the failure is
precisely the index-out-of-range read of `args[3]`. -/
theorem load_data_arity (check : List DataArg → Bool) (args : List DataArg) :
    ((∃ s, load_data check args = .ok s) → 4 ≤ args.length) ∧
    (∀ it pt ft,
      args = [DataArg.itemsT it, DataArg.pats pt, DataArg.fills ft] →
      check args = true → WFTables it pt ft →
      load_data check args = .error (.argIndexErr 3)) ∧
    (check defaultArgs = true →
      ∃ s, load_data check defaultArgs = .ok s) := by
  refine ⟨?_, ?_, ?_⟩
  · rintro ⟨s, hs⟩
    rw [load_data] at hs
    by_cases hc : check args = true
    · rw [if_neg (not_not_intro hc)] at hs
      obtain ⟨a0, h0, hs⟩ := except_ok_of_bind hs
      obtain ⟨a1, h1, hs⟩ := except_ok_of_bind hs
      obtain ⟨a2, h2, hs⟩ := except_ok_of_bind hs
      obtain ⟨t0, ht0, hs⟩ := except_ok_of_bind hs
      obtain ⟨t1, ht1, hs⟩ := except_ok_of_bind hs
      obtain ⟨t2, ht2, hs⟩ := except_ok_of_bind hs
      obtain ⟨items, hi, hs⟩ := except_ok_of_bind hs
      obtain ⟨pats, hp, hs⟩ := except_ok_of_bind hs
      obtain ⟨mx, hm, hs⟩ := except_ok_of_bind hs
      obtain ⟨fp, hf, hs⟩ := except_ok_of_bind hs
      obtain ⟨a3, h3, hs⟩ := except_ok_of_bind hs
      exact argAt_ok_length h3
    · rw [if_pos hc] at hs
      cases hs
  · rintro it pt ft rfl hc ⟨hit, hptne, hpt2, hft⟩
    rw [load_data, if_neg (not_not_intro hc)]
    obtain ⟨items, hitems, hilen, hiback, hifwd⟩ :=
      mapM_except_ok
        (fun r => (TItem.make r).elim (Except.error LoadErr.rowIndexErr)
          Except.ok) it
        (fun r hr => by
          obtain ⟨y, hy⟩ := titem_make_of_len (hit r hr)
          refine ⟨y, ?_⟩
          show (TItem.make r).elim (Except.error LoadErr.rowIndexErr)
            Except.ok = Except.ok y
          rw [hy]
          rfl)
    obtain ⟨pats, hpats, hplen, hpback, hpfwd⟩ :=
      mapM_except_ok
        (fun r => (TPattern.make r).elim (Except.error LoadErr.typeErr)
          Except.ok) pt
        (fun r hr => by
          obtain ⟨y, hy, _⟩ := tpattern_make_of_len (hpt2 r hr)
          refine ⟨y, ?_⟩
          show (TPattern.make r).elim (Except.error LoadErr.typeErr)
            Except.ok = Except.ok y
          rw [hy]
          rfl)
    have hio : itemsOf it = Except.ok items := hitems
    have hpo : patternsOf pt = Except.ok pats := hpats
    rcases hmap : pats.map TPattern.id with _ | ⟨x, xs⟩
    · exfalso
      have hpnil : pats = [] := List.map_eq_nil_iff.1 hmap
      rw [hpnil] at hplen
      exact hptne (List.length_eq_zero.1 hplen.symm)
    · have hmo : maxIdOf pats = Except.ok (xs.foldl max x) := by
        unfold maxIdOf
        rw [hmap]
      obtain ⟨fpairs, hfpairs, _⟩ :=
        mapM_except_ok (fillRowOf pats items) ft (fun f hf => by
          obtain ⟨hfp, hfi⟩ := hft f hf
          obtain ⟨r, hr, hrhead⟩ := hfp
          obtain ⟨y, hy, hyhead⟩ := tpattern_make_of_len (hpt2 r hr)
          have hyid : TPattern.id y = f.1 := by
            rw [hrhead] at hyhead
            exact (Option.some_inj.1 hyhead).symm
          have hymem : y ∈ pats := hpfwd r hr y (by
            show (TPattern.make r).elim (Except.error LoadErr.typeErr)
              Except.ok = Except.ok y
            rw [hy]
            rfl)
          obtain ⟨zp, hzp, _⟩ := filter_getLast_some
            (fun a => decide (TPattern.id a = f.1)) pats y hymem
            (by simp [hyid])
          obtain ⟨ri, hri, hrihead⟩ := hfi
          rcases ri with _ | ⟨i0, ritail⟩
          · cases hrihead
          · have h3 : 3 ≤ (i0 :: ritail).length := hit _ hri
            obtain ⟨yi, hyi⟩ := titem_make_of_len h3
            have hyiid : TItem.id yi = f.2.1 := by
              rcases ritail with _ | ⟨i1, _ | ⟨i2, rr⟩⟩
              · simp at h3
              · simp at h3
              · cases hyi
                cases hrihead
                rfl
            have hyimem : yi ∈ items := hifwd _ hri yi (by
              show (TItem.make (i0 :: ritail)).elim
                (Except.error LoadErr.rowIndexErr) Except.ok = Except.ok yi
              rw [hyi]
              rfl)
            obtain ⟨zi, hzi, _⟩ := filter_getLast_some
              (fun a => decide (TItem.id a = f.2.1)) items yi hyimem
              (by simp [hyiid])
            refine ⟨((zp, zi), f.2.2), ?_⟩
            unfold fillRowOf
            unfold lastById
            rw [hzp]
            show ((Except.ok zp >>= _ : Except LoadErr _)) = _
            rw [ok_bind, hzi]
            rfl)
      show (argAt _ 0 >>= _) = _
      have e0 : argAt [DataArg.itemsT it, DataArg.pats pt, DataArg.fills ft]
          0 = .ok (DataArg.itemsT it) := rfl
      have e1 : argAt [DataArg.itemsT it, DataArg.pats pt, DataArg.fills ft]
          1 = .ok (DataArg.pats pt) := rfl
      have e2 : argAt [DataArg.itemsT it, DataArg.pats pt, DataArg.fills ft]
          2 = .ok (DataArg.fills ft) := rfl
      rw [e0, ok_bind, e1, ok_bind, e2, ok_bind]
      show (itemTableOf _ >>= _) = _
      rw [show itemTableOf (DataArg.itemsT it) = Except.ok it from rfl,
        ok_bind,
        show patTableOf (DataArg.pats pt) = Except.ok pt from rfl, ok_bind,
        show fillTableOf (DataArg.fills ft) = Except.ok ft from rfl, ok_bind,
        hio, ok_bind, hpo, ok_bind, hmo, ok_bind, hfpairs, ok_bind]
      rfl
  · intro hc
    refine ⟨defaultLoadedState, ?_⟩
    rw [load_data, if_neg (not_not_intro hc)]
    rfl

/-- Witness for the amended claim C9: the three default tables (without the
roll width) pass a permissive check and fail exactly on `args[3]`. -/
theorem load_data_arity_witness :
    load_data (fun _ => true)
      [DataArg.itemsT DEFAULT_ITEMS, DataArg.pats DEFAULT_PATTERNS,
        DataArg.fills DEFAULT_PATTERN_ITEM_FILLED] =
      .error (.argIndexErr 3) :=
  (load_data_arity (fun _ => true)
      [DataArg.itemsT DEFAULT_ITEMS, DataArg.pats DEFAULT_PATTERNS,
        DataArg.fills DEFAULT_PATTERN_ITEM_FILLED]).2.1
    DEFAULT_ITEMS DEFAULT_PATTERNS DEFAULT_PATTERN_ITEM_FILLED rfl rfl
    (by decide)

/-! ## Claim C3: invariant-bearing state in the repository -/

/-- Claim C3, counterexample: `CutStockMasterModel` does keep mutable state
whose operations preserve a nontrivial invariant.  At the concrete state
the default model loads, `max_pattern_id` equals the maximum pattern id,
and one `add_new_pattern` call moves to a genuinely different state in
which the invariant again holds. -/
theorem cutstock_invariant_cex :
    invMaxId defaultLoadedState ∧
    ∃ s1, add_new_pattern defaultLoadedState [2, 0, 0, 0, 0] = some s1 ∧
      invMaxId s1 ∧ s1 ≠ defaultLoadedState := by
  exact ⟨by decide, ⟨_, rfl, by decide, by decide⟩⟩

/-- Claim C3 as amended: the repository does maintain an invariant-bearing
state machine: `CutStockMasterModel.add_new_pattern` preserves the
invariant that `max_pattern_id` equals the maximum pattern id (bounding and
attained), and `load_data` establishes it. -/
theorem cutstock_maxid_invariant (s s2 s3 : CutStockState) (us : List Rat)
    (check : List DataArg → Bool) (args : List DataArg) :
    (add_new_pattern s us = some s2 → invMaxId s → invMaxId s2) ∧
    (load_data check args = .ok s3 → invMaxId s3) := by
  constructor
  · intro h hinv
    rw [add_new_pattern] at h
    by_cases hlen : us.length ≤ s.items.length
    · rw [if_pos hlen] at h
      cases h
      constructor
      · intro p hp
        rcases List.mem_append.1 hp with hp | hp
        · exact le_trans (hinv.1 p hp)
            (le_of_lt (lt_add_one s.max_pattern_id))
        · rw [List.mem_singleton.1 hp]
      · exact Or.inr ⟨⟨s.max_pattern_id + 1, 1⟩,
          List.mem_append.2 (Or.inr (List.mem_singleton.2 rfl)), rfl⟩
    · rw [if_neg hlen] at h
      cases h
  · intro hs
    rw [load_data] at hs
    by_cases hc : check args = true
    · rw [if_neg (not_not_intro hc)] at hs
      obtain ⟨a0, h0, hs⟩ := except_ok_of_bind hs
      obtain ⟨a1, h1, hs⟩ := except_ok_of_bind hs
      obtain ⟨a2, h2, hs⟩ := except_ok_of_bind hs
      obtain ⟨t0, ht0, hs⟩ := except_ok_of_bind hs
      obtain ⟨t1, ht1, hs⟩ := except_ok_of_bind hs
      obtain ⟨t2, ht2, hs⟩ := except_ok_of_bind hs
      obtain ⟨items, hi, hs⟩ := except_ok_of_bind hs
      obtain ⟨pats, hp, hs⟩ := except_ok_of_bind hs
      obtain ⟨mx, hm, hs⟩ := except_ok_of_bind hs
      obtain ⟨fp, hf, hs⟩ := except_ok_of_bind hs
      obtain ⟨a3, h3, hs⟩ := except_ok_of_bind hs
      obtain ⟨w, hw, hs⟩ := except_ok_of_bind hs
      cases hs
      rcases hmap : pats.map TPattern.id with _ | ⟨x, xs⟩
      · rw [maxIdOf, hmap] at hm
        cases hm
      · rw [maxIdOf, hmap] at hm
        cases hm
        constructor
        · intro p hp
          exact foldl_max_le x xs (TPattern.id p)
            (hmap ▸ List.mem_map_of_mem TPattern.id hp)
        · refine Or.inr ?_
          have := foldl_max_mem x xs
          rw [← hmap] at this
          obtain ⟨p, hp, hpid⟩ := List.mem_map.1 this
          exact ⟨p, hp, hpid⟩
    · rw [if_pos hc] at hs
      cases hs

/-- Witness for the amended claim C3: one concrete `add_new_pattern`
step from a one-pattern state preserving the invariant. -/
theorem cutstock_maxid_invariant_witness :
    invMaxId (⟨[], [⟨5, 1⟩, ⟨6, 1⟩], [], 6, 110⟩ : CutStockState) :=
  (cutstock_maxid_invariant ⟨[], [⟨5, 1⟩], [], 5, 110⟩
      ⟨[], [⟨5, 1⟩, ⟨6, 1⟩], [], 6, 110⟩ ⟨[], [], [], 0, 0⟩ []
      (fun _ => true) []).1 rfl (by decide)

/-! ## Claim C10: the GAP builders read the module-level globals -/

/-- Claim C10, counterexample: with `As`, `Bs`, `Cs` held fixed at the
module constants, changing the global `C` (here: dropping its last row)
changes the model constructed by `run_GAP_model` as well as the one
constructed by `run_GAP_model_with_Lagrangian_relaxation`, so the models
are not functions of the `As`, `Bs`, `Cs` parameters alone. -/
theorem gap_reads_global_cex :
    buildGAP lagC lagB lagA lagB lagC ≠
      buildGAP (lagC.take 4) lagB lagA lagB lagC ∧
    buildRelax lagC lagA lagB lagC ≠
      buildRelax (lagC.take 4) lagA lagB lagC := by decide

/-- Claim C10 as amended: the constructed models are functions of the read
globals together with the parameters.  `run_GAP_model` reads the globals
`C` and `B` only through their lengths, so two calls with identical
parameters and globals of equal lengths build identical models; the
relaxation variant reads the rows `C[i]` themselves, and even a
length-preserving change of the global `C` can change its model. -/
theorem gap_global_dependence (C1 C2 : List (List Int)) (B1 B2 : List Int)
    (As : List (List Int)) (Bs : List Int) (Cs : List (List Int))
    (hC : C1.length = C2.length) (hB : B1.length = B2.length) :
    buildGAP C1 B1 As Bs Cs = buildGAP C2 B2 As Bs Cs ∧
    ∃ D1 D2 : List (List Int), D1.length = D2.length ∧
      buildRelax D1 lagA lagB lagC ≠ buildRelax D2 lagA lagB lagC := by
  constructor
  · unfold buildGAP
    rw [hC, hB]
  · exact ⟨lagC, [[6, 10], [12, 12, 5], [15, 4, 3], [10, 3, 9], [8, 9, 5]],
      by decide, by decide⟩

/-- Witness for the amended claim C10, at the module constants and a
length-preserving padding of the global `C`. -/
theorem gap_global_dependence_witness :
    buildGAP lagC lagB lagA lagB lagC =
      buildGAP (lagC.map (fun r => r ++ [0])) lagB lagA lagB lagC ∧
    ∃ D1 D2 : List (List Int), D1.length = D2.length ∧
      buildRelax D1 lagA lagB lagC ≠ buildRelax D2 lagA lagB lagC :=
  gap_global_dependence lagC (lagC.map (fun r => r ++ [0])) lagB lagB
    lagA lagB lagC (by decide) rfl

/-! ## Claim C7: the data parsing of `rcpsp.py` -/

/-- Every task row of a list of non-empty rows yields its head, in
order. -/
theorem headsOf_ok (rows : List (List Int)) (h : ∀ row ∈ rows, row ≠ []) :
    ∃ ds, headsOf rows = some ds ∧ ds.length = rows.length ∧
      ∀ i, ds.get? i = (rows.get? i).bind List.head? := by
  induction rows with
  | nil => exact ⟨[], rfl, rfl, fun i => by cases i <;> rfl⟩
  | cons row rest ih =>
    obtain ⟨ds, hds, hlen, hget⟩ :=
      ih (fun r hr => h r (List.mem_cons_of_mem _ hr))
    rcases row with _ | ⟨d, rtail⟩
    · exact absurd rfl (h [] (List.mem_cons_self _ _))
    · refine ⟨d :: ds, ?_, by simp [hlen], ?_⟩
      · show (headsOf rest).map _ = _
        rw [hds]
        rfl
      · intro i
        cases i with
        | zero => rfl
        | succ n => simpa using hget n

/-- Claim C7: on every well-formed data file (line 0 holds the two counts;
each of the `NB_TASKS` task rows is a duration, `NB_RESOURCES` demands, a
successor count, and that many successors), the module-level parsing of
`rcpsp.py` yields `DURATIONS[t]` from field 0, `DEMANDS[t]` as exactly
fields 1 through `NB_RESOURCES` (hence of length `NB_RESOURCES`), and
`SUCCESSORS[t]` as the fields from index `NB_RESOURCES + 2` onward,
skipping exactly the count field at index `NB_RESOURCES + 1`, whose value
is the length of `SUCCESSORS[t]`. -/
theorem rcpsp_parse_correct (ls : List (List Int)) (T R : Nat)
    (h0 : lineAt ls 0 = [(T : Int), (R : Int)])
    (hrows : ∀ t, t < T → ∃ (dur cnt : Int) (dem suc : List Int),
      lineAt ls (2 + t) = dur :: (dem ++ cnt :: suc) ∧ dem.length = R ∧
      cnt = (suc.length : Int)) :
    ∃ p, parseRcpsp ls = some p ∧
      p.nbTasks = (T : Int) ∧ p.nbResources = (R : Int) ∧
      p.capacities = lineAt ls 1 ∧
      p.durations.length = T ∧ p.demands.length = T ∧
      p.successors.length = T ∧
      ∀ t, t < T →
        p.durations.get? t = (lineAt ls (2 + t)).head? ∧
        p.demands.get? t = some (((lineAt ls (2 + t)).drop 1).take R) ∧
        (∀ d, p.demands.get? t = some d → d.length = R) ∧
        p.successors.get? t = some ((lineAt ls (2 + t)).drop (R + 2)) ∧
        ∀ su, p.successors.get? t = some su →
          (lineAt ls (2 + t)).get? (R + 1) = some (su.length : Int) := by
  have htoT : ((T : Int)).toNat = T := rfl
  have htoR : ((R : Int)).toNat = R := rfl
  have hrowsne : ∀ row ∈ (List.range T).map (fun i => lineAt ls (2 + i)),
      row ≠ [] := by
    intro row hrow
    obtain ⟨i, hi, hrowi⟩ := List.mem_map.1 hrow
    obtain ⟨dur, cnt, dem, suc, hshape, _, _⟩ :=
      hrows i (List.mem_range.1 hi)
    rw [← hrowi, hshape]
    exact List.cons_ne_nil _ _
  obtain ⟨ds, hds, hdslen, hdsget⟩ := headsOf_ok _ hrowsne
  refine ⟨⟨(T : Int), (R : Int), lineAt ls 1, ds,
      ((List.range T).map (fun i => lineAt ls (2 + i))).map
        (fun row => (row.drop 1).take ((R : Int)).toNat),
      ((List.range T).map (fun i => lineAt ls (2 + i))).map
        (fun row => row.drop (((R : Int)).toNat + 2))⟩,
    ?_, rfl, rfl, rfl, ?_, ?_, ?_, ?_⟩
  · show parseRcpsp ls = _
    unfold parseRcpsp
    rw [h0]
    show (headsOf ((List.range T).map (fun i => lineAt ls (2 + i)))).map _ = _
    rw [hds]
    rfl
  · simpa using hdslen
  · simp
  · simp
  · intro t ht
    have htask : ((List.range T).map (fun i => lineAt ls (2 + i))).get? t =
        some (lineAt ls (2 + t)) := by
      rw [List.get?_map, List.get?_range ht]
      rfl
    obtain ⟨dur, cnt, dem, suc, hshape, hdemlen, hcnt⟩ := hrows t ht
    refine ⟨?_, ?_, ?_, ?_, ?_⟩
    · show ds.get? t = _
      rw [hdsget t, htask]
      rfl
    · show (((List.range T).map (fun i => lineAt ls (2 + i))).map
        (fun row => (row.drop 1).take ((R : Int)).toNat)).get? t = _
      rw [List.get?_map, htask]
      rfl
    · intro d hd
      show d.length = R
      rw [List.get?_map, htask] at hd
      cases hd
      rw [hshape]
      show ((dem ++ cnt :: suc).take ((R : Int)).toNat).length = R
      rw [htoR, ← hdemlen, List.take_left]
    · show (((List.range T).map (fun i => lineAt ls (2 + i))).map
        (fun row => row.drop (((R : Int)).toNat + 2))).get? t = _
      rw [List.get?_map, htask]
      rfl
    · intro su hsu
      rw [List.get?_map, htask] at hsu
      cases hsu
      rw [hshape]
      have hget : (dur :: (dem ++ cnt :: suc)).get? (R + 1) = some cnt := by
        show (dem ++ cnt :: suc).get? R = some cnt
        rw [← hdemlen, List.get?_append_right (le_refl dem.length)]
        simp
      rw [hget]
      have hdropped : (dur :: (dem ++ cnt :: suc)).drop (((R : Int)).toNat + 2)
          = suc := by
        rw [htoR]
        show (dem ++ cnt :: suc).drop (R + 1) = suc
        rw [← hdemlen,
          show dem ++ cnt :: suc = (dem ++ [cnt]) ++ suc from by simp,
          List.drop_left' (by simp)]
      show some cnt =
        some ((((dur :: (dem ++ cnt :: suc)).drop
          (((R : Int)).toNat + 2)).length : Int))
      rw [hdropped, hcnt]


/-- Witness for claim C7, on a one-task, two-resource file. -/
theorem rcpsp_parse_correct_witness :
    ∃ p, parseRcpsp [[1, 2], [4, 5], [3, 7, 8, 2, 9, 10]] = some p ∧
      p.nbTasks = ((1 : Nat) : Int) ∧ p.nbResources = ((2 : Nat) : Int) ∧
      p.capacities = lineAt [[1, 2], [4, 5], [3, 7, 8, 2, 9, 10]] 1 ∧
      p.durations.length = 1 ∧ p.demands.length = 1 ∧
      p.successors.length = 1 ∧
      ∀ t, t < 1 →
        p.durations.get? t =
          (lineAt [[1, 2], [4, 5], [3, 7, 8, 2, 9, 10]] (2 + t)).head? ∧
        p.demands.get? t = some
          (((lineAt [[1, 2], [4, 5], [3, 7, 8, 2, 9, 10]] (2 + t)).drop
            1).take 2) ∧
        (∀ d, p.demands.get? t = some d → d.length = 2) ∧
        p.successors.get? t = some
          ((lineAt [[1, 2], [4, 5], [3, 7, 8, 2, 9, 10]] (2 + t)).drop
            (2 + 2)) ∧
        ∀ su, p.successors.get? t = some su →
          (lineAt [[1, 2], [4, 5], [3, 7, 8, 2, 9, 10]] (2 + t)).get?
            (2 + 1) = some (su.length : Int) :=
  rcpsp_parse_correct [[1, 2], [4, 5], [3, 7, 8, 2, 9, 10]] 1 2 rfl
    (fun t ht => by
      interval_cases t
      exact ⟨3, 2, [7, 8], [9, 10], rfl, rfl, rfl⟩)

/-! ## Claim C4: termination of the column-generation loop -/

/-- The fuel given to `runAux` is irrelevant once it is at least the number
of iterations the guard `loop_count < 100` still allows, so the embedded
loop genuinely terminates. -/
theorem runAux_fuel_irrelevant (o : CGOracle) :
    ∀ f1 f2 lc best curr status, 100 - lc ≤ f1 → 100 - lc ≤ f2 →
      runAux o f1 lc best curr status = runAux o f2 lc best curr status := by
  intro f1
  induction f1 with
  | zero =>
    intro f2 lc best curr status h1 h2
    have hlc : ¬ lc < 100 := by omega
    cases f2 with
    | zero => rfl
    | succ g =>
      show ([], status) = runAux o (g + 1) lc best curr status
      simp only [runAux]
      rw [if_neg (fun h => hlc h.1)]
  | succ f ih =>
    intro f2 lc best curr status h1 h2
    cases f2 with
    | zero =>
      have hlc : ¬ lc < 100 := by omega
      show runAux o (f + 1) lc best curr status = ([], status)
      simp only [runAux]
      rw [if_neg (fun h => hlc h.1)]
    | succ g =>
      simp only [runAux]
      by_cases hg : lc < 100 ∧ absGeEps best curr = true
      · rw [if_pos hg, if_pos hg]
        cases hm : o.masterObj lc with
        | none => rfl
        | some obj =>
          cases hgen : o.genObj lc with
          | none => rfl
          | some rc =>
            dsimp only
            by_cases hrc : rc ≤ -rc_eps
            · rw [if_pos hrc, if_pos hrc]
              by_cases hg2 : lc + 1 < 100 ∧ absGeEps curr (some obj) = true
              · rw [if_pos hg2, if_pos hg2,
                  ih g (lc + 1) curr (some obj) true (by omega) (by omega)]
              · rw [if_neg hg2, if_neg hg2]
            · rw [if_neg hrc, if_neg hrc]
      · rw [if_neg hg, if_neg hg]

/-- The loop performs at most `100 - loop_count` further iterations. -/
theorem runAux_length (o : CGOracle) :
    ∀ fuel lc best curr status,
      (runAux o fuel lc best curr status).1.length ≤ 100 - lc := by
  intro fuel
  induction fuel with
  | zero =>
    intro lc best curr status
    exact Nat.zero_le _
  | succ f ih =>
    intro lc best curr status
    simp only [runAux]
    by_cases hg : lc < 100 ∧ absGeEps best curr = true
    · rw [if_pos hg]
      cases hm : o.masterObj lc with
      | none =>
        dsimp only
        simp only [List.length_cons, List.length_nil]
        omega
      | some obj =>
        cases hgen : o.genObj lc with
        | none =>
          dsimp only
          simp only [List.length_cons, List.length_nil]
          omega
        | some rc =>
          dsimp only
          by_cases hrc : rc ≤ -rc_eps
          · rw [if_pos hrc]
            by_cases hg2 : lc + 1 < 100 ∧ absGeEps curr (some obj) = true
            · rw [if_pos hg2]
              have := ih (lc + 1) curr (some obj) true
              simp only [List.length_cons]
              omega
            · rw [if_neg hg2]
              simp only [List.length_cons, List.length_nil]
              omega
          · rw [if_neg hrc]
            simp only [List.length_cons, List.length_nil]
            omega
    · rw [if_neg hg]
      exact Nat.zero_le _

/-- The recorded `loop_count` values are consecutive, starting at
`loop_count + 1`: the counter increases by exactly one per iteration. -/
theorem runAux_iters (o : CGOracle) :
    ∀ fuel lc best curr status,
      (runAux o fuel lc best curr status).1.map Prod.fst =
        List.range' (lc + 1)
          (runAux o fuel lc best curr status).1.length := by
  intro fuel
  induction fuel with
  | zero =>
    intro lc best curr status
    rfl
  | succ f ih =>
    intro lc best curr status
    simp only [runAux]
    by_cases hg : lc < 100 ∧ absGeEps best curr = true
    · rw [if_pos hg]
      cases hm : o.masterObj lc with
      | none => rfl
      | some obj =>
        cases hgen : o.genObj lc with
        | none => rfl
        | some rc =>
          dsimp only
          by_cases hrc : rc ≤ -rc_eps
          · rw [if_pos hrc]
            by_cases hg2 : lc + 1 < 100 ∧ absGeEps curr (some obj) = true
            · rw [if_pos hg2]
              simp only [List.map_cons, List.length_cons, List.range']
              rw [ih (lc + 1) curr (some obj) true]
            · rw [if_neg hg2]
              rfl
          · rw [if_neg hrc]
            rfl
    · rw [if_neg hg]
      rfl

/-- Every iteration solves the master model first and the pattern-generator
model at most once afterwards. -/
theorem runAux_events (o : CGOracle) :
    ∀ fuel lc best curr status,
      ∀ e ∈ (runAux o fuel lc best curr status).1,
        e.2 = [Ev.master] ∨ e.2 = [Ev.master, Ev.gen] := by
  intro fuel
  induction fuel with
  | zero =>
    intro lc best curr status e he
    cases he
  | succ f ih =>
    intro lc best curr status e he
    simp only [runAux] at he
    by_cases hg : lc < 100 ∧ absGeEps best curr = true
    · rw [if_pos hg] at he
      cases hm : o.masterObj lc with
      | none =>
        rw [hm] at he
        dsimp only at he
        rw [List.mem_singleton.1 he]
        exact Or.inl rfl
      | some obj =>
        rw [hm] at he
        dsimp only at he
        cases hgen : o.genObj lc with
        | none =>
          rw [hgen] at he
          dsimp only at he
          rw [List.mem_singleton.1 he]
          exact Or.inr rfl
        | some rc =>
          rw [hgen] at he
          dsimp only at he
          by_cases hrc : rc ≤ -rc_eps
          · rw [if_pos hrc] at he
            by_cases hg2 : lc + 1 < 100 ∧ absGeEps curr (some obj) = true
            · rw [if_pos hg2] at he
              rcases List.mem_cons.1 he with he | he
              · rw [he]
                exact Or.inr rfl
              · exact ih (lc + 1) curr (some obj) true e he
            · rw [if_neg hg2] at he
              rw [List.mem_singleton.1 he]
              exact Or.inr rfl
          · rw [if_neg hrc] at he
            rw [List.mem_singleton.1 he]
            exact Or.inr rfl
    · rw [if_neg hg] at he
      cases he

/-- Claim C4: for every behavior of the external solver, the
column-generation loop of `CutStockMasterModel.run` performs at most 100
iterations (and any fuel of at least 100 yields the same run, so the loop
terminates); the recorded loop counts are 1, 2, 3, ... (the counter
increases by exactly one per iteration), and every iteration solves the
master model once and then the pattern-generator model at most once, in
that order. -/
theorem run_column_generation_bounded (o : CGOracle) :
    (runCG o).1.length ≤ 100 ∧
    (∀ fuel, 100 ≤ fuel →
      runAux o fuel 0 (some 0) none false = runCG o) ∧
    (runCG o).1.map Prod.fst = List.range' 1 (runCG o).1.length ∧
    ∀ e ∈ (runCG o).1, e.2 = [Ev.master] ∨ e.2 = [Ev.master, Ev.gen] := by
  refine ⟨?_, ?_, ?_, ?_⟩
  · simpa using runAux_length o 100 0 (some 0) none false
  · intro fuel hf
    exact runAux_fuel_irrelevant o fuel 100 0 (some 0) none false
      (by omega) (by omega)
  · exact runAux_iters o 100 0 (some 0) none false
  · exact runAux_events o 100 0 (some 0) none false

/-- Witness for claim C4, at the oracle whose master solve always fails. -/
theorem run_column_generation_bounded_witness :
    (runCG ⟨fun _ => none, fun _ => none⟩).1.length ≤ 100 ∧
    runAux ⟨fun _ => none, fun _ => none⟩ 150 0 (some 0) none false =
      runCG ⟨fun _ => none, fun _ => none⟩ :=
  ⟨(run_column_generation_bounded ⟨fun _ => none, fun _ => none⟩).1,
    (run_column_generation_bounded ⟨fun _ => none, fun _ => none⟩).2.1 150
      (by omega)⟩


/-! ## Claim C2: lemmas on the event sweep of `preshow` -/

theorem sweep_snd_mono (es : List (Int × Int)) :
    ∀ s : Int × Int, s.2 ≤ (es.foldl sweepStep s).2 := by
  induction es with
  | nil => intro s; exact le_refl _
  | cons e es ih =>
    intro s
    exact le_trans (le_max_left s.2 (s.1 + e.2)) (ih (sweepStep s e))

theorem sweep_fst (es : List (Int × Int)) :
    ∀ s : Int × Int, (es.foldl sweepStep s).1 = s.1 + sumTags es := by
  induction es with
  | nil => intro s; simp [sumTags]
  | cons e es ih =>
    intro s
    rw [List.foldl_cons, ih (sweepStep s e)]
    simp [sweepStep, sumTags]
    ring

theorem sweep_fst_le_snd (es : List (Int × Int)) :
    ∀ s : Int × Int, s.1 ≤ s.2 →
      (es.foldl sweepStep s).1 ≤ (es.foldl sweepStep s).2 := by
  induction es with
  | nil => intro s h; exact h
  | cons e es ih =>
    intro s _
    exact ih (sweepStep s e) (le_max_right _ _)

theorem sumTags_prefix_le_sweep (p q : List (Int × Int)) :
    sumTags p ≤ ((p ++ q).foldl sweepStep (0, 0)).2 := by
  rw [List.foldl_append]
  calc sumTags p = (p.foldl sweepStep (0, 0)).1 := by
        rw [sweep_fst p (0, 0)]
        simp
    _ ≤ (p.foldl sweepStep (0, 0)).2 :=
        sweep_fst_le_snd p (0, 0) (le_refl 0)
    _ ≤ _ := sweep_snd_mono q _

theorem nblayers_nonneg (l : List VItv) : 0 ≤ nblayersOf l :=
  sweep_snd_mono (sortedEvents l) (0, 0)

theorem sorted_filter_eq_takeWhile (c : Int × Int) :
    ∀ es : List (Int × Int), List.Sorted evle es →
      es.filter (fun e => decide (evle e c)) =
        es.takeWhile (fun e => decide (evle e c)) := by
  intro es
  induction es with
  | nil => intro _; rfl
  | cons a es ih =>
    intro hs
    by_cases ha : evle a c
    · rw [List.filter_cons_of_pos (by simpa using ha),
        List.takeWhile_cons_of_pos (by simpa using ha), ih hs.of_cons]
    · rw [List.takeWhile_cons_of_neg (by simpa using ha)]
      rw [List.filter_cons_of_neg (by simpa using ha)]
      rw [List.filter_eq_nil]
      intro b hb
      simp only [decide_eq_true_eq]
      intro hbc
      exact ha (IsTrans.trans a b c (List.rel_of_sorted_cons hs b hb) hbc)

theorem sumTags_filter_le_sweep (c : Int × Int) (es : List (Int × Int))
    (hs : List.Sorted evle es) :
    sumTags (es.filter (fun e => decide (evle e c))) ≤
      (es.foldl sweepStep (0, 0)).2 := by
  rw [sorted_filter_eq_takeWhile c es hs]
  have hsplit : es.takeWhile (fun e => decide (evle e c)) ++
      es.dropWhile (fun e => decide (evle e c)) = es :=
    List.takeWhile_append_dropWhile _ _
  calc sumTags (es.takeWhile (fun e => decide (evle e c)))
      ≤ ((es.takeWhile (fun e => decide (evle e c)) ++
          es.dropWhile (fun e => decide (evle e c))).foldl sweepStep (0, 0)).2 :=
        sumTags_prefix_le_sweep _ _
    _ = (es.foldl sweepStep (0, 0)).2 := by rw [hsplit]

theorem evle_start_iff (s t : Int) : evle (s, 1) (t, 1) ↔ s ≤ t := by
  unfold evle
  constructor
  · rintro (h | ⟨h, _⟩)
    · exact le_of_lt h
    · exact le_of_eq h
  · intro h
    rcases lt_or_eq_of_le h with h | h
    · exact Or.inl h
    · exact Or.inr ⟨h, le_refl 1⟩

theorem evle_stop_iff (e t : Int) : evle (e, -1) (t, 1) ↔ e ≤ t := by
  unfold evle
  constructor
  · rintro (h | ⟨h, _⟩)
    · exact le_of_lt h
    · exact le_of_eq h
  · intro h
    rcases lt_or_eq_of_le h with h | h
    · exact Or.inl h
    · exact Or.inr ⟨h, by norm_num⟩

theorem sumTags_starts (l : List VItv) (q : VItv → Bool) :
    sumTags ((l.filter q).map (fun i => (i.start, 1))) =
      (l.countP q : Int) := by
  rw [List.countP_eq_length_filter]
  induction l.filter q with
  | nil => rfl
  | cons a as ih =>
    simp only [List.map_cons, sumTags, List.sum_cons, List.length_cons] at *
    push_cast at *
    omega

theorem sumTags_stops (l : List VItv) (q : VItv → Bool) :
    sumTags ((l.filter q).map (fun i => (i.stop, -1))) =
      -(l.countP q : Int) := by
  rw [List.countP_eq_length_filter]
  induction l.filter q with
  | nil => rfl
  | cons a as ih =>
    simp only [List.map_cons, sumTags, List.sum_cons, List.length_cons] at *
    push_cast at *
    omega

theorem sumTags_sorted_events (l : List VItv) (t : Int) :
    sumTags ((sortedEvents l).filter (fun e => decide (evle e (t, 1)))) =
      (l.countP (fun i => decide (i.start ≤ t)) : Int) -
        l.countP (fun i => decide (i.stop ≤ t)) := by
  have hperm : (sortedEvents l).Perm (rawEvents l) :=
    List.perm_insertionSort evle (rawEvents l)
  have hfil := hperm.filter (fun e => decide (evle e (t, 1)))
  rw [show sumTags ((sortedEvents l).filter (fun e => decide (evle e (t, 1))))
      = ((((sortedEvents l).filter (fun e => decide (evle e (t, 1)))).map
        Prod.snd).sum) from rfl,
    (hfil.map Prod.snd).sum_eq]
  rw [rawEvents, List.filter_append]
  have hstarts : (l.map (fun i => (i.start, (1 : Int)))).filter
      (fun e => decide (evle e (t, 1))) =
      (l.filter (fun i => decide (i.start ≤ t))).map (fun i => (i.start, 1)) := by
    rw [List.filter_map]
    congr 1
    apply List.filter_congr
    intro i _
    simp [evle_start_iff]
  have hstops : (l.map (fun i => (i.stop, (-1 : Int)))).filter
      (fun e => decide (evle e (t, 1))) =
      (l.filter (fun i => decide (i.stop ≤ t))).map (fun i => (i.stop, -1)) := by
    rw [List.filter_map]
    congr 1
    apply List.filter_congr
    intro i _
    simp [evle_stop_iff]
  rw [show (((l.map (fun i => (i.start, (1 : Int)))).filter
      (fun e => decide (evle e (t, 1))) ++
      (l.map (fun i => (i.stop, (-1 : Int)))).filter
      (fun e => decide (evle e (t, 1)))).map Prod.snd).sum =
      sumTags ((l.map (fun i => (i.start, (1 : Int)))).filter
      (fun e => decide (evle e (t, 1)))) +
      sumTags ((l.map (fun i => (i.stop, (-1 : Int)))).filter
      (fun e => decide (evle e (t, 1)))) from by
        simp [sumTags]]
  rw [hstarts, hstops, sumTags_starts, sumTags_stops]
  ring

theorem open_count_identity (t : Int) (l : List VItv)
    (hpos : ∀ i ∈ l, i.start < i.stop) :
    (l.countP (fun i => decide (i.start ≤ t)) : Int) -
      l.countP (fun i => decide (i.stop ≤ t)) = openCount l t := by
  induction l with
  | nil => rfl
  | cons i l ih =>
    have hi := hpos i (List.mem_cons_self i l)
    have ihl := ih (fun j hj => hpos j (List.mem_cons_of_mem i hj))
    unfold openCount at *
    rw [List.countP_cons, List.countP_cons, List.countP_cons]
    split_ifs <;> simp only [decide_eq_true_eq] at * <;> push_cast <;> omega

theorem openCount_le_nblayers (l : List VItv) (t : Int)
    (hpos : ∀ i ∈ l, i.start < i.stop) :
    (openCount l t : Int) ≤ nblayersOf l := by
  rw [← open_count_identity t l hpos, ← sumTags_sorted_events l t]
  exact sumTags_filter_le_sweep (t, 1) (sortedEvents l)
    (List.sorted_insertionSort evle (rawEvents l))

theorem one_le_nblayers (l : List VItv) (hne : l ≠ [])
    (hpos : ∀ i ∈ l, i.start < i.stop) : 1 ≤ nblayersOf l := by
  rcases l with _ | ⟨i, l'⟩
  · exact absurd rfl hne
  · have h1 : 0 < (i :: l').countP
        (fun j => decide (j.start ≤ i.start ∧ i.start < j.stop)) := by
      rw [List.countP_pos]
      exact ⟨i, List.mem_cons_self i l', by
        simp only [decide_eq_true_eq]
        exact ⟨le_refl _, hpos i (List.mem_cons_self i l')⟩⟩
    have h2 := openCount_le_nblayers (i :: l') i.start hpos
    unfold openCount at h2
    omega

/-! ## Claim C2: lemmas on the layer heap of `preshow` -/

theorem hple_fst_le {x y : Int × Nat} (h : hple x y) : x.1 ≤ y.1 := by
  rcases h with h | ⟨h, _⟩
  · exact le_of_lt h
  · exact le_of_eq h

theorem not_hple_fst_le {x y : Int × Nat} (h : ¬ hple x y) : y.1 ≤ x.1 := by
  unfold hple at h
  push_neg at h
  omega

theorem hinsert_perm (x : Int × Nat) (h : List (Int × Nat)) :
    (hinsert x h).Perm (x :: h) := by
  induction h with
  | nil => exact List.Perm.refl _
  | cons y ys ih =>
    unfold hinsert
    by_cases hc : hple x y
    · rw [if_pos hc]
    · rw [if_neg hc]
      exact List.Perm.trans (ih.cons y) (List.Perm.swap x y ys)

theorem hinsert_sorted (x : Int × Nat) :
    ∀ h : List (Int × Nat),
      List.Sorted (fun a b : Int × Nat => a.1 ≤ b.1) h →
      List.Sorted (fun a b : Int × Nat => a.1 ≤ b.1) (hinsert x h) := by
  intro h
  induction h with
  | nil => intro _; exact List.sorted_singleton x
  | cons y ys ih =>
    intro hs
    have hpair := List.pairwise_cons.1 hs
    unfold hinsert
    by_cases hc : hple x y
    · rw [if_pos hc]
      refine List.pairwise_cons.2 ⟨?_, hs⟩
      intro z hz
      rcases List.mem_cons.1 hz with rfl | hz
      · exact hple_fst_le hc
      · exact le_trans (hple_fst_le hc) (hpair.1 z hz)
    · rw [if_neg hc]
      refine List.pairwise_cons.2 ⟨?_, ih hpair.2⟩
      intro z hz
      rcases (hinsert_perm x ys).mem_iff.1 hz with hz2
      rcases List.mem_cons.1 hz2 with rfl | hz3
      · exact not_hple_fst_le hc
      · exact hpair.1 z hz3

theorem mem_of_getLast_some {α : Type} {l : List α} {a : α}
    (h : l.getLast? = some a) : a ∈ l := by
  rcases l with _ | ⟨x, xs⟩
  · cases h
  · rw [List.getLast?_eq_getLast (x :: xs) (List.cons_ne_nil x xs)] at h
    cases h
    exact List.getLast_mem _

/-! ## Claim C2: correctness of the assignment loop of `preshow` -/

theorem assignLayers_spec (l : List VItv) (hpos : ∀ i ∈ l, i.start < i.stop)
    (smin : Int) :
    ∀ (rest : List VItv) (heap : List (Int × Nat)) (hist : List LItv),
      (hist.map unlayer ++ rest).Perm l →
      List.Sorted ile rest →
      (∀ e ∈ hist, ∀ y ∈ rest, e.start ≤ y.start) →
      (∀ y ∈ rest, smin ≤ y.start) →
      List.Sorted (fun a b : Int × Nat => a.1 ≤ b.1) heap →
      heap.length = (nblayersOf l).toNat →
      (heap.map Prod.snd).Nodup →
      (∀ hv ∈ heap, hv.2 < (nblayersOf l).toNat) →
      (∀ hv ∈ heap, availOf smin hist hv.2 = hv.1) →
      (∀ lvl : Nat, List.Chain' (fun a b : LItv => a.stop ≤ b.start)
        (hist.filter (fun e => e.lvl == lvl))) →
      ∃ out, assignLayers rest heap = some out ∧
        out.map unlayer = rest ∧
        (∀ e ∈ out, e.lvl < (nblayersOf l).toNat) ∧
        ∀ lvl : Nat, List.Chain' (fun a b : LItv => a.stop ≤ b.start)
          ((hist ++ out).filter (fun e => e.lvl == lvl)) := by
  intro rest
  induction rest with
  | nil =>
    intro heap hist hperm hsort hstartle hsmin hhs hhlen hhnd hhlt havail
      hchain
    exact ⟨[], rfl, rfl, fun e he => absurd he (List.not_mem_nil e),
      fun lvl => by simpa using hchain lvl⟩
  | cons itv rest ih =>
    intro heap hist hperm hsort hstartle hsmin hhs hhlen hhnd hhlt havail
      hchain
    have hitvl : itv ∈ l :=
      hperm.mem_iff.1 (List.mem_append.2 (Or.inr (List.mem_cons_self _ _)))
    have hNpos : 1 ≤ nblayersOf l := by
      have h1 : 0 < l.countP
          (fun j => decide (j.start ≤ itv.start ∧ itv.start < j.stop)) := by
        rw [List.countP_pos]
        exact ⟨itv, hitvl, by
          simp only [decide_eq_true_eq]
          exact ⟨le_refl _, hpos itv hitvl⟩⟩
      have h2 := openCount_le_nblayers l itv.start hpos
      unfold openCount at h2
      omega
    cases heap with
    | nil =>
      exfalso
      simp only [List.length_nil] at hhlen
      omega
    | cons hv0 heap2 =>
      obtain ⟨tmin, lvl0⟩ := hv0
      have hpair := List.pairwise_cons.1 hhs
      have hsmini : smin ≤ itv.start := hsmin itv (List.mem_cons_self _ _)
      -- key step: the least availability time does not exceed the next start
      have hkey : tmin ≤ itv.start := by
        by_contra hlt
        push_neg at hlt
        have hopen : ∀ hv ∈ (tmin, lvl0) :: heap2, ∃ e ∈ hist,
            e.lvl = hv.2 ∧ e.start ≤ itv.start ∧ itv.start < e.stop := by
          intro hv hhv
          have h1 : tmin ≤ hv.1 := by
            rcases List.mem_cons.1 hhv with rfl | hhv2
            · exact le_refl _
            · exact hpair.1 hv hhv2
          have h2 : availOf smin hist hv.2 = hv.1 := havail hv hhv
          have hgt : itv.start < availOf smin hist hv.2 := by omega
          rcases hlast : (hist.filter (fun e => e.lvl == hv.2)).getLast? with
            _ | e
          · rw [availOf, hlast] at hgt
            simp only [Option.elim_none] at hgt
            omega
          · have hemem : e ∈ hist.filter (fun e => e.lvl == hv.2) :=
              mem_of_getLast_some hlast
            have he1 : e ∈ hist := (List.mem_filter.1 hemem).1
            have helvl : e.lvl = hv.2 := by
              have := (List.mem_filter.1 hemem).2
              simpa using this
            have hestop : availOf smin hist hv.2 = e.stop := by
              rw [availOf, hlast]
              rfl
            refine ⟨e, he1, helvl,
              hstartle e he1 itv (List.mem_cons_self _ _), by omega⟩
        have hsub : ((((tmin, lvl0) :: heap2).map Prod.snd).toFinset) ⊆
            ((hist.filter (fun e =>
              decide (e.start ≤ itv.start ∧ itv.start < e.stop))).map
                LItv.lvl).toFinset := by
          intro lv hlv
          rw [List.mem_toFinset] at hlv ⊢
          obtain ⟨hv, hhv, hveq⟩ := List.mem_map.1 hlv
          obtain ⟨e, he, helvl, hPe1, hPe2⟩ := hopen hv hhv
          refine List.mem_map.2 ⟨e, List.mem_filter.2 ⟨he, ?_⟩, by
            rw [helvl, hveq]⟩
          simp only [decide_eq_true_eq]
          exact ⟨hPe1, hPe2⟩
        have hcard1 : ((((tmin, lvl0) :: heap2).map Prod.snd).toFinset).card =
            (nblayersOf l).toNat := by
          rw [List.toFinset_card_of_nodup hhnd, List.length_map]
          exact hhlen
        have hcard2 : (((hist.filter (fun e =>
            decide (e.start ≤ itv.start ∧ itv.start < e.stop))).map
              LItv.lvl).toFinset).card ≤
            hist.countP (fun e =>
              decide (e.start ≤ itv.start ∧ itv.start < e.stop)) := by
          calc _ ≤ ((hist.filter (fun e =>
                decide (e.start ≤ itv.start ∧ itv.start < e.stop))).map
                  LItv.lvl).length := List.toFinset_card_le _
            _ = (hist.filter (fun e =>
                decide (e.start ≤ itv.start ∧ itv.start < e.stop))).length :=
                  List.length_map _ _
            _ = _ := (List.countP_eq_length_filter _ _).symm
        have hcards := Finset.card_le_card hsub
        have hmapcount : hist.countP (fun e =>
            decide (e.start ≤ itv.start ∧ itv.start < e.stop)) =
            (hist.map unlayer).countP (fun j =>
              decide (j.start ≤ itv.start ∧ itv.start < j.stop)) := by
          rw [List.countP_map]
          rfl
        have hlcount := hperm.countP_eq (fun j =>
          decide (j.start ≤ itv.start ∧ itv.start < j.stop))
        rw [List.countP_append, List.countP_cons] at hlcount
        have hitvP : (decide (itv.start ≤ itv.start ∧ itv.start < itv.stop))
            = true := by
          simp only [decide_eq_true_eq]
          exact ⟨le_refl _, hpos itv hitvl⟩
        rw [hitvP] at hlcount
        have hub := openCount_le_nblayers l itv.start hpos
        unfold openCount at hub
        have hN : (((nblayersOf l).toNat : Int)) = nblayersOf l :=
          Int.toNat_of_nonneg (nblayers_nonneg l)
        simp only [if_true] at hlcount
        omega
      -- invariants for the recursive call
      have hperm2 : ((hist ++
          [(⟨itv.start, itv.stop, itv.color, itv.name, lvl0⟩ : LItv)]).map
            unlayer ++ rest).Perm l := by
        rw [List.map_append, List.append_assoc]
        exact hperm
      have hstartle2 : ∀ e ∈ hist ++
          [(⟨itv.start, itv.stop, itv.color, itv.name, lvl0⟩ : LItv)],
          ∀ y ∈ rest, e.start ≤ y.start := by
        intro e he y hy
        rcases List.mem_append.1 he with he | he
        · exact hstartle e he y (List.mem_cons_of_mem _ hy)
        · rw [List.mem_singleton.1 he]
          exact List.rel_of_sorted_cons hsort y hy
      have hlvl0N : lvl0 < (nblayersOf l).toNat :=
        hhlt (tmin, lvl0) (List.mem_cons_self _ _)
      have hnotin : lvl0 ∉ heap2.map Prod.snd := (List.nodup_cons.1 hhnd).1
      have havail2 : ∀ hv ∈ hinsert (itv.stop, lvl0) heap2,
          availOf smin (hist ++
            [(⟨itv.start, itv.stop, itv.color, itv.name, lvl0⟩ : LItv)])
            hv.2 = hv.1 := by
        intro hv hhv
        rcases List.mem_cons.1 ((hinsert_perm _ _).mem_iff.1 hhv) with
          rfl | hhv2
        · show availOf smin _ lvl0 = itv.stop
          rw [availOf, List.filter_append]
          rw [show List.filter (fun e : LItv => e.lvl == lvl0)
            [(⟨itv.start, itv.stop, itv.color, itv.name, lvl0⟩ : LItv)] =
            [(⟨itv.start, itv.stop, itv.color, itv.name, lvl0⟩ : LItv)] from
              by simp]
          rw [List.getLast?_concat]
          rfl
        · have hne : hv.2 ≠ lvl0 := by
            intro heq
            exact hnotin (heq ▸ List.mem_map_of_mem Prod.snd hhv2)
          rw [availOf, List.filter_append]
          rw [show List.filter (fun e : LItv => e.lvl == hv.2)
            [(⟨itv.start, itv.stop, itv.color, itv.name, lvl0⟩ : LItv)] =
            [] from by simp [Ne.symm hne]]
          rw [List.append_nil]
          rw [← availOf]
          exact havail hv (List.mem_cons_of_mem _ hhv2)
      have hchain2 : ∀ lvl : Nat,
          List.Chain' (fun a b : LItv => a.stop ≤ b.start)
            ((hist ++
              [(⟨itv.start, itv.stop, itv.color, itv.name, lvl0⟩ : LItv)]).filter
                (fun e => e.lvl == lvl)) := by
        intro lvl
        rw [List.filter_append]
        by_cases hlvl : lvl0 = lvl
        · subst hlvl
          rw [show List.filter (fun e : LItv => e.lvl == lvl0)
            [(⟨itv.start, itv.stop, itv.color, itv.name, lvl0⟩ : LItv)] =
            [(⟨itv.start, itv.stop, itv.color, itv.name, lvl0⟩ : LItv)] from
              by simp]
          refine List.chain'_append.2 ⟨hchain lvl0, List.chain'_singleton _,
            ?_⟩
          intro x hx y hy
          have hy2 : y = (⟨itv.start, itv.stop, itv.color, itv.name,
            lvl0⟩ : LItv) := by
            have := hy
            simp only [List.head?_cons, Option.mem_def, Option.some_inj]
              at this
            exact this.symm
          rw [hy2]
          show x.stop ≤ itv.start
          have havail0 := havail (tmin, lvl0) (List.mem_cons_self _ _)
          rw [availOf, Option.mem_def.1 hx] at havail0
          simp only [Option.elim_some] at havail0
          omega
        · rw [show List.filter (fun e : LItv => e.lvl == lvl)
            [(⟨itv.start, itv.stop, itv.color, itv.name, lvl0⟩ : LItv)] =
            [] from by simp [hlvl]]
          rw [List.append_nil]
          exact hchain lvl
      obtain ⟨out, hout, houtmap, houtlvl, houtchain⟩ :=
        ih (hinsert (itv.stop, lvl0) heap2)
          (hist ++ [(⟨itv.start, itv.stop, itv.color, itv.name, lvl0⟩ : LItv)])
          hperm2 hsort.of_cons hstartle2
          (fun y hy => hsmin y (List.mem_cons_of_mem _ hy))
          (hinsert_sorted _ _ hpair.2)
          (by
            rw [(hinsert_perm _ _).length_eq]
            simpa using hhlen)
          (((hinsert_perm _ _).map Prod.snd).nodup_iff.2 hhnd)
          (by
            intro hv hhv
            rcases List.mem_cons.1 ((hinsert_perm _ _).mem_iff.1 hhv) with
              rfl | hhv2
            · exact hlvl0N
            · exact hhlt hv (List.mem_cons_of_mem _ hhv2))
          havail2 hchain2
      refine ⟨⟨itv.start, itv.stop, itv.color, itv.name, lvl0⟩ :: out,
        ?_, ?_, ?_, ?_⟩
      · show (assignLayers rest (hinsert (itv.stop, lvl0) heap2)).map _ = _
        rw [hout]
        rfl
      · show itv :: out.map unlayer = itv :: rest
        rw [houtmap]
      · intro e he
        rcases List.mem_cons.1 he with rfl | he
        · exact hlvl0N
        · exact houtlvl e he
      · intro lvl
        rw [show hist ++
          (⟨itv.start, itv.stop, itv.color, itv.name, lvl0⟩ : LItv) :: out =
          (hist ++
            [(⟨itv.start, itv.stop, itv.color, itv.name, lvl0⟩ : LItv)]) ++
              out from by rw [List.append_assoc]; rfl]
        exact houtchain lvl

/-- Claim C2, counterexample: for the interval list [(0,5), (3,3)] (the
second interval is zero-width), `preshow` runs, computes one layer, and
places both intervals on layer 0 even though the second starts at 3,
before the end 5 of the previously placed interval, so the claimed
per-layer non-overlap fails on a non-empty interval list. -/
theorem preshow_overlap_cex :
    preshow [⟨0, 5, 0, none⟩, ⟨3, 3, 1, none⟩] =
      some (1, [⟨0, 5, 0, none, 0⟩, ⟨3, 3, 1, none, 0⟩]) ∧
    ¬ List.Chain' (fun a b : LItv => a.stop ≤ b.start)
      (([⟨0, 5, 0, none, 0⟩, ⟨3, 3, 1, none, 0⟩] : List LItv).filter
        (fun e => e.lvl == 0)) := by
  constructor
  · decide
  · rw [show (([⟨0, 5, 0, none, 0⟩, ⟨3, 3, 1, none, 0⟩] : List LItv).filter
      (fun e => e.lvl == 0)) =
      [⟨0, 5, 0, none, 0⟩, ⟨3, 3, 1, none, 0⟩] from rfl]
    intro hch
    exact absurd (List.chain'_cons.1 hch).1 (by decide)

/-- Claim C2 as amended: for every non-empty list of intervals in which
every interval starts strictly before it ends, after
`_IntervalPanel.preshow` runs, `nblayers` is the sweep count (which bounds
the number of intervals simultaneously open at any time point), the
layered list enumerates exactly the given intervals, every interval gets a
layer index below `nblayers`, and on each layer every interval starts no
earlier than the end of the previously placed interval on that layer. -/
theorem preshow_layering (l : List VItv) (hne : l ≠ [])
    (hpos : ∀ i ∈ l, i.start < i.stop) :
    ∃ out, preshow l = some (nblayersOf l, out) ∧
      (∀ t : Int, (openCount l t : Int) ≤ nblayersOf l) ∧
      (out.map unlayer).Perm l ∧
      (∀ e ∈ out, e.lvl < (nblayersOf l).toNat) ∧
      ∀ lvl : Nat, List.Chain' (fun a b : LItv => a.stop ≤ b.start)
        (out.filter (fun e => e.lvl == lvl)) := by
  rcases hsl : List.insertionSort ile l with _ | ⟨first, tail⟩
  · exfalso
    have hp := List.perm_insertionSort ile l
    rw [hsl] at hp
    exact hne hp.symm.eq_nil
  · have hsorted : List.Sorted ile (first :: tail) := by
      rw [← hsl]
      exact List.sorted_insertionSort ile l
    have hperm0 : (([] : List LItv).map unlayer ++ (first :: tail)).Perm l := by
      have hp := List.perm_insertionSort ile l
      rw [hsl] at hp
      simpa using hp
    obtain ⟨out, hout, houtmap, houtlvl, houtchain⟩ :=
      assignLayers_spec l hpos first.start (first :: tail)
        ((List.range (nblayersOf l).toNat).map (fun lvl => (first.start, lvl)))
        [] hperm0 hsorted
        (fun e he => absurd he (List.not_mem_nil e))
        (by
          intro y hy
          rcases List.mem_cons.1 hy with rfl | hy2
          · exact le_refl _
          · exact List.rel_of_sorted_cons hsorted y hy2)
        (by
          rw [List.Sorted, List.pairwise_map]
          exact (List.nodup_range (nblayersOf l).toNat).imp
            (fun _ => le_refl _))
        (by simp)
        (by
          have : ((List.range (nblayersOf l).toNat).map
              (fun lvl => (first.start, lvl))).map Prod.snd =
              List.range (nblayersOf l).toNat := by
            rw [List.map_map]
            exact List.map_id _
          rw [this]
          exact List.nodup_range _)
        (by
          intro hv hhv
          obtain ⟨lvl, hlvl, rfl⟩ := List.mem_map.1 hhv
          exact List.mem_range.1 hlvl)
        (by
          intro hv hhv
          obtain ⟨lvl, _, rfl⟩ := List.mem_map.1 hhv
          rfl)
        (by
          intro lvl
          exact List.chain'_nil)
    refine ⟨out, ?_, fun t => openCount_le_nblayers l t hpos, ?_, houtlvl,
      ?_⟩
    · unfold preshow
      rw [hsl]
      show (assignLayers (first :: tail) _).map _ = _
      rw [hout]
      rfl
    · rw [houtmap, ← hsl]
      exact List.perm_insertionSort ile l
    · intro lvl
      simpa using houtchain lvl

/-- Witness for the amended claim C2 on two overlapping proper
intervals: two layers, each interval on its own layer. -/
theorem preshow_layering_witness :
    ∃ out, preshow [⟨0, 2, 0, none⟩, ⟨1, 3, 1, none⟩] =
        some (nblayersOf [⟨0, 2, 0, none⟩, ⟨1, 3, 1, none⟩], out) ∧
      (∀ t : Int,
        (openCount [⟨0, 2, 0, none⟩, ⟨1, 3, 1, none⟩] t : Int) ≤
          nblayersOf [⟨0, 2, 0, none⟩, ⟨1, 3, 1, none⟩]) ∧
      (out.map unlayer).Perm [⟨0, 2, 0, none⟩, ⟨1, 3, 1, none⟩] ∧
      (∀ e ∈ out, e.lvl <
        (nblayersOf [⟨0, 2, 0, none⟩, ⟨1, 3, 1, none⟩]).toNat) ∧
      ∀ lvl : Nat, List.Chain' (fun a b : LItv => a.stop ≤ b.start)
        (out.filter (fun e => e.lvl == lvl)) :=
  preshow_layering [⟨0, 2, 0, none⟩, ⟨1, 3, 1, none⟩] (by decide)
    (by decide)

end DocplexExamples
